import Mathlib

/-!
Verification development for the graph workflow engine
(`extensions/before_main_llm_call/_15_htn_plan_selector.py`).

The Python module stores plans, nodes, edges and traversal state as
dictionaries; this file embeds them shallowly as Lean structures with
`Option` fields wherever the source reads a key with `dict.get` and a
default.  Python strings appear either as `String` (identifiers compared
only for equality) or as `List Char` (texts subjected to lower-casing and
substring tests).  Dictionaries whose insertion order matters (the plan
library, `graph["nodes"]`, `state["visited"]`) are embedded as association
lists; Python guarantees unique keys, which theorems assume through
explicit `Nodup` hypotheses where it matters.

Fields of the source dictionaries that the engine never branches on
(`action`, `tool`, `tool_hint`, escalate `reason`/`pace_level`, the
`from`/`to`/`condition` payload of `edge_followed` events, the
`iteration_started` compat field) are omitted: they only feed log text and
prompt injection, which no modelled function reads back.
-/

set_option linter.unusedVariables false

/-- Verification spec dictionary: `{"type": ..., "value": ...}`, both keys
read with `.get` and a default (`"any_output"` resp. `""`). -/
structure VerifySpec where
  vtype : Option String
  value : Option (List Char)
deriving DecidableEq

/-- A graph node.  `ntype` is `node.get("type", "task")` — absent means the
traversal treats the node as a task.  `max_retries` is
`node.get("max_retries", 0)`. -/
structure GNode where
  ntype : Option String
  verify : Option VerifySpec
  max_retries : Option Nat
deriving DecidableEq

/-- A graph edge.  `efrom` is `e.get("from")` (an edge without a `from` key
matches no node); `eto` is the mandatory `e["to"]`; `cond` is
`e.get("condition", "always")`. -/
structure GEdge where
  efrom : Option String
  eto : String
  cond : Option String
deriving DecidableEq

/-- `plan["graph"]`: nodes keyed by id, an edge list, and
`graph.get("start", "")`. -/
structure Graph where
  nodes : List (String × GNode)
  edges : List GEdge
  start : String
deriving DecidableEq

/-- A plan-library entry.  Only the fields the matcher and the graph engine
read are carried; `name`, `trigger_threshold` and `stale_after_turns` are
read with `.get` defaults (`plan_id`, `2`, `15`). -/
structure Plan where
  name : Option String
  domains : List String
  triggers : List (List Char)
  trigger_threshold : Option Nat
  graph : Option Graph
  stale_after_turns : Option Nat
deriving DecidableEq

/-- Per-node visit record `{"outcome": ..., "attempts": ...}`. -/
structure Visit where
  outcome : String
  attempts : Nat
deriving DecidableEq

/-- A traversal event.  The engine only ever reads an event's `type` and
`outcome` (in `_get_last_outcome`); the remaining payload fields are
write-only and collapsed to the optional `node`/`outcome` carried here. -/
structure Event where
  etype : String
  turn : Nat
  node : Option String
  outcome : Option String
deriving DecidableEq

/-- The graph-mode traversal state built by `_create_graph_state`.
`iteration_started` (never read or written after creation) is omitted. -/
structure GState where
  plan_id : String
  plan_name : String
  mode : String
  current_step : Nat
  total_steps : Nat
  turns_since_progress : Nat
  steps_completed : List String
  steps_failed : List String
  stale_after_turns : Nat
  current_node : String
  visited : List (String × Visit)
  path : List String
  total_nodes : Nat
  completed_nodes : Nat
  turns_since_transition : Nat
  events : List Event
deriving DecidableEq

/-- Outcome of one `_check_graph_progress` call.  The Python function
mutates or deletes the state attribute; here the cleared outcomes carry the
final state (event log included) as it stood when `_clear_state` ran. -/
inductive StepResult where
  | active : GState → StepResult
  | expired : GState → StepResult
  | completed : GState → StepResult
  | escalated : GState → StepResult
  | abandoned : StepResult
deriving DecidableEq

/-- Events of the state carried by a step result (`[]` for the defensive
`abandoned` outcome, whose state was dropped without ceremony). -/
def StepResult.events : StepResult → List Event
  | .active s => s.events
  | .expired s => s.events
  | .completed s => s.events
  | .escalated s => s.events
  | .abandoned => []

/-- The state carried by a step result, with a fallback for `abandoned`. -/
def StepResult.stateD (r : StepResult) (d : GState) : GState :=
  match r with
  | .active s => s
  | .expired s => s
  | .completed s => s
  | .escalated s => s
  | .abandoned => d

-- ── Association-list helpers (Python dict lookup / item assignment) ──

/-- First-match lookup, i.e. `d.get(k)` on a dict embedded in insertion
order. -/
def alistGet {β : Type} (k : String) : List (String × β) → Option β
  | [] => none
  | (k', v) :: t => if k' = k then some v else alistGet k t

/-- `d[k] = v`: replace the first binding in place, else append. -/
def alistSet {β : Type} (k : String) (v : β) : List (String × β) → List (String × β)
  | [] => [(k, v)]
  | (k', v') :: t => if k' = k then (k, v) :: t else (k', v') :: alistSet k v t

-- ── Constants ──

/-- `MAX_EVENTS = 50`. -/
def MAX_EVENTS : Nat := 50

/-- `MAX_ROUTE_DEPTH = 15`. -/
def MAX_ROUTE_DEPTH : Nat := 15

-- ── Verification evaluator (`_verify_node`) ──

/-- Case-insensitive text for Python's `str.lower()`. -/
def lowerText (s : List Char) : List Char := s.map Char.toLower

/-- Python's substring test `needle in hay` on strings. -/
def textIn (needle hay : List Char) : Bool := decide (needle <:+: hay)

/-- `_verify_node(node, output)`. -/
def verifyNode (node : GNode) (output : List Char) : Bool :=
  match node.verify with
  | none => true
  | some sp =>
    let vtype := sp.vtype.getD "any_output"
    let value := sp.value.getD []
    let outputLower := lowerText output
    if vtype = "output_contains" then textIn (lowerText value) outputLower
    else if vtype = "output_not_contains" then !(textIn (lowerText value) outputLower)
    else if vtype = "exit_code_zero" then
      !(textIn "error".toList outputLower) && !(textIn "exit code".toList outputLower)
    else if vtype = "any_output" then output.any (fun c => !c.isWhitespace)
    else if vtype = "file_exists" then true
    else if vtype = "manual" then true
    else true

-- ── Plan matcher (`_match_plan`) ──

/-- `domain_match = not plan_domains or domain in plan_domains`. -/
def domainMatch (plan : Plan) (domain : String) : Bool :=
  plan.domains.isEmpty || plan.domains.contains domain

/-- `hits = sum(1 for t in triggers if t in message)`. -/
def triggerHits (plan : Plan) (message : List Char) : Nat :=
  plan.triggers.countP (fun t => textIn t message)

/-- `score = hits + (1.0 if domain_match and plan_domains else 0)`; the only
float involved is the exact `1.0`, so the score is carried as a `Nat`. -/
def planScore (plan : Plan) (domain : String) (message : List Char) : Nat :=
  triggerHits plan message +
    (if domainMatch plan domain && !plan.domains.isEmpty then 1 else 0)

/-- The qualification test `hits >= threshold and domain_match`. -/
def qualifies (plan : Plan) (domain : String) (message : List Char) : Bool :=
  decide (plan.trigger_threshold.getD 2 ≤ triggerHits plan message) && domainMatch plan domain

/-- The org-kernel allow-list filter: skip when an allow-list exists and the
plan id is not a member. -/
def allowedOk (allowed : Option (List String)) (pid : String) : Bool :=
  match allowed with
  | none => true
  | some l => l.contains pid

/-- The plan loop of `_match_plan`, carrying `best_id`/`best_score`. -/
def matchLoop (domain : String) (message : List Char) (allowed : Option (List String)) :
    List (String × Plan) → Option String → Nat → Option String
  | [], best, _ => best
  | (pid, plan) :: rest, best, bestScore =>
    if !(allowedOk allowed pid) then
      matchLoop domain message allowed rest best bestScore
    else if qualifies plan domain message &&
        decide (bestScore < planScore plan domain message) then
      matchLoop domain message allowed rest (some pid) (planScore plan domain message)
    else
      matchLoop domain message allowed rest best bestScore

/-- `_match_plan`: run the loop from `best_id = None, best_score = 0`, then
return `(best_id, plans[best_id])` when a best id was found. -/
def matchPlan (plans : List (String × Plan)) (domain : String) (message : List Char)
    (allowed : Option (List String)) : Option (String × Plan) :=
  match matchLoop domain message allowed plans none 0 with
  | some pid => (alistGet pid plans).map (fun p => (pid, p))
  | none => none

-- ── Event system (`_emit_event`) ──

/-- `_emit_event`: append `{type, turn, **fields}` and trim to the last
`MAX_EVENTS` entries.  `turn` is the state's `turns_since_transition` at
emission time. -/
def emitEvent (s : GState) (ty : String) (nd oc : Option String) : GState :=
  let es := s.events ++ [⟨ty, s.turns_since_transition, nd, oc⟩]
  { s with events := if MAX_EVENTS < es.length then es.drop (es.length - MAX_EVENTS) else es }

-- ── Graph traversal engine ──

/-- The effective node type `node.get("type", "task")`. -/
def effType (n : GNode) : String := n.ntype.getD "task"

/-- `candidates = [e for e in edges if e.get("from") == from_node]`. -/
def edgesFrom (g : Graph) (fromNode : String) : List GEdge :=
  g.edges.filter (fun e => decide (e.efrom = some fromNode))

/-- The first candidate edge carrying the given condition, and its target —
one scan of `_follow_edge`'s lookup loop. -/
def condTarget (g : Graph) (fromNode cond : String) : Option String :=
  ((edgesFrom g fromNode).find? (fun e => decide (e.cond.getD "always" = cond))).map
    (fun e => e.eto)

/-- `_follow_edge(state, graph, from_node, condition, fallback, fallback2)`.
Empty-string fallbacks mean "not supplied" and are skipped, exactly as the
falsy check in the source does; an `"always"` edge is tried as last resort
unconditionally. -/
def followEdge (g : Graph) (fromNode : String) (condition fallback fallback2 : String) :
    Option String :=
  let candidates := edgesFrom g fromNode
  match candidates.find? (fun e => decide (e.cond.getD "always" = condition)) with
  | some e => some e.eto
  | none =>
    match (if fallback = "" then none
           else candidates.find? (fun e => decide (e.cond.getD "always" = fallback))) with
    | some e => some e.eto
    | none =>
      match (if fallback2 = "" then none
             else candidates.find? (fun e => decide (e.cond.getD "always" = fallback2))) with
      | some e => some e.eto
      | none =>
        (candidates.find? (fun e => decide (e.cond.getD "always" = "always"))).map (fun e => e.eto)

/-- `_move_to_node`: set `current_node`, extend `path`, zero
`turns_since_transition`, reset the target's visited entry if present, and
emit `edge_followed` then `node_entered`.  `fromNode` and `cond` only feed
the dropped `edge_followed` payload. -/
def moveToNode (g : Graph) (s : GState) (fromNode toNode cond : String) : GState :=
  let s := { s with current_node := toNode,
                    path := s.path ++ [toNode],
                    turns_since_transition := 0 }
  let s := { s with visited :=
    (match alistGet toNode s.visited with
     | some _ => alistSet toNode ⟨"pending", 0⟩ s.visited
     | none => s.visited) }
  let s := emitEvent s "edge_followed" none none
  emitEvent s "node_entered" (some toNode) none

/-- `_get_last_outcome`: outcome of the most recent `node_verified` event,
defaulting to `"success"`. -/
def getLastOutcome (s : GState) : String :=
  match s.events.reverse.find? (fun e => decide (e.etype = "node_verified")) with
  | some e => e.outcome.getD "success"
  | none => "success"

/-- The routing condition a decision node uses: `on_<last outcome>`, or
`"always"` for a falsy outcome string. -/
def decisionCond (s : GState) : String :=
  let lastOutcome := getLastOutcome s
  if lastOutcome = "" then "always" else "on_" ++ lastOutcome

/-- `_auto_route` with explicit fuel: the source recurses with `depth + 1`
and returns once `depth >= MAX_ROUTE_DEPTH`, so a call at depth `d` has
`MAX_ROUTE_DEPTH - d` moves of fuel left. -/
def autoRouteFuel (g : Graph) : Nat → GState → GState
  | 0, s => s
  | fuel + 1, s =>
    match alistGet s.current_node g.nodes with
    | none => s
    | some node =>
      if effType node = "decision" then
        match followEdge g s.current_node (decisionCond s) "always" "" with
        | some t => autoRouteFuel g fuel (moveToNode g s s.current_node t (decisionCond s))
        | none => s
      else if effType node = "start" then
        match followEdge g s.current_node "always" "" "" with
        | some t => autoRouteFuel g fuel (moveToNode g s s.current_node t "always")
        | none => s
      else if effType node = "checkpoint" then
        match followEdge g s.current_node "always" "" "" with
        | some t => autoRouteFuel g fuel (moveToNode g s s.current_node t "always")
        | none => s
      else s

/-- `_auto_route(agent, state, plan)` as invoked from the engine (depth 0). -/
def autoRoute (g : Graph) (s : GState) : GState := autoRouteFuel g MAX_ROUTE_DEPTH s

/-- `_advance_from_start`: emit `node_entered` for the start id, follow its
`always` edge and auto-route; stay put when the start id has no edge. -/
def advanceFromStart (g : Graph) (s : GState) : GState :=
  let s := emitEvent s "node_entered" (some g.start) none
  match followEdge g g.start "always" "" "" with
  | some t => autoRoute g (moveToNode g s g.start t "always")
  | none => s

/-- Count of nodes whose declared type is exactly `"task"`, as
`_create_graph_state` computes it over `nodes.values()`. -/
def taskCount (g : Graph) : Nat :=
  (g.nodes.map Prod.snd).countP (fun n => decide (n.ntype = some "task"))

/-- Count of nodes the traversal itself treats as tasks: declared type
`"task"` or no declared type at all (the `.get("type", "task")` default). -/
def effTaskCount (g : Graph) : Nat :=
  (g.nodes.map Prod.snd).countP (fun n => decide (effType n = "task"))

/-- `_create_graph_state` followed by its `plan_activated` event. -/
def createGraphState (planId : String) (plan : Plan) (g : Graph) : GState :=
  let st : GState := {
    plan_id := planId
    plan_name := plan.name.getD planId
    mode := "graph"
    current_step := 0
    total_steps := taskCount g
    turns_since_progress := 0
    steps_completed := []
    steps_failed := []
    stale_after_turns := plan.stale_after_turns.getD 15
    current_node := g.start
    visited := []
    path := [g.start]
    total_nodes := taskCount g
    completed_nodes := 0
    turns_since_transition := 0
    events := [] }
  emitEvent st "plan_activated" (some g.start) none

/-- Plan activation as `execute` performs it for a graph plan:
`_create_graph_state` then `_advance_from_start`. -/
def activate (planId : String) (plan : Plan) (g : Graph) : GState :=
  advanceFromStart g (createGraphState planId plan g)

/-- The default visit record `{"outcome": "pending", "attempts": 0}` used by
`setdefault` and by the re-entry reset. -/
def freshVisit : Visit := ⟨"pending", 0⟩

/-- The visited entry for a node as every consumer reads it
(`setdefault`-style, absent meaning `freshVisit`). -/
def visitedEntry (s : GState) (nodeId : String) : Visit :=
  (alistGet nodeId s.visited).getD freshVisit

/-- The first-success bookkeeping of the verified branch: count the node
once in `completed_nodes`/`steps_completed` and reset
`turns_since_progress`; a node already recorded changes nothing. -/
def recordCompletion (nodeId : String) (s : GState) : GState :=
  if nodeId ∈ s.steps_completed then s
  else { s with completed_nodes := s.completed_nodes + 1,
                steps_completed := s.steps_completed ++ [nodeId],
                turns_since_progress := 0 }

/-- The verified branch of the task block (source lines under
`if verified:`): record success, count first-time completions, update the
compat `current_step`, then follow `on_success` (fallback `always`). -/
def successBlock (g : Graph) (nodeId : String) (att : Nat) (s : GState) : GState :=
  let s := { s with visited := alistSet nodeId ⟨"success", att⟩ s.visited }
  let s := recordCompletion nodeId s
  let s := { s with current_step := s.completed_nodes }
  match followEdge g nodeId "on_success" "always" "" with
  | some t => autoRoute g (moveToNode g s nodeId t "on_success")
  | none => s

/-- The retries-remaining branch: emit `retry_triggered`, follow `on_retry`
(or stay put when `_follow_edge` finds nothing). -/
def retryBlock (g : Graph) (nodeId : String) (s : GState) : GState :=
  let s := emitEvent s "retry_triggered" (some nodeId) none
  match followEdge g nodeId "on_retry" "" "" with
  | some t => autoRoute g (moveToNode g s nodeId t "on_retry")
  | none => s

/-- The failure bookkeeping of the exhausted branch: add the node to
`steps_failed` once. -/
def recordFailure (nodeId : String) (s : GState) : GState :=
  if nodeId ∈ s.steps_failed then s
  else { s with steps_failed := s.steps_failed ++ [nodeId] }

/-- The retries-exhausted branch: record the failure (once in
`steps_failed`), follow `on_exhaust` with fallbacks `on_fail` then
`always`. -/
def exhaustBlock (g : Graph) (nodeId : String) (att : Nat) (s : GState) : GState :=
  let s := { s with visited := alistSet nodeId ⟨"fail", att⟩ s.visited }
  let s := recordFailure nodeId s
  match followEdge g nodeId "on_exhaust" "on_fail" "always" with
  | some t => autoRoute g (moveToNode g s nodeId t "on_exhaust")
  | none => s

/-- The `ntype == "task"` block of `_check_graph_progress`: consume the last
tool output if present, count the attempt, verify, and dispatch to the
success / retry / exhaust block.  `node_id` is read once before any
mutation, exactly as the source does. -/
def handleTask (g : Graph) (node : GNode) (s : GState) (lastOutput : Option (List Char)) :
    GState :=
  match lastOutput with
  | none => s
  | some out =>
    let nodeId := s.current_node
    let prev := visitedEntry s nodeId
    let att := prev.attempts + 1
    let s := { s with visited := alistSet nodeId ⟨prev.outcome, att⟩ s.visited }
    let verified := verifyNode node out
    let s := emitEvent s "node_verified" (some nodeId)
               (some (if verified then "success" else "fail"))
    if verified then successBlock g nodeId att s
    else if att ≤ node.max_retries.getD 0 then retryBlock g nodeId s
    else exhaustBlock g nodeId att s

/-- The trailing terminal re-check of `_check_graph_progress`.  The source
reads `final_node["type"]` by direct index; for a node without a `type` key
that raises `KeyError`, which `execute`'s outer handler swallows after the
in-place state mutations already happened — the net effect equals staying
active, which is how the default branch here models it. -/
def finalCheck (g : Graph) (s : GState) : StepResult :=
  match alistGet s.current_node g.nodes with
  | none => .active s
  | some node =>
    match node.ntype with
    | some t =>
      if t = "exit" then .completed (emitEvent s "plan_completed" (some s.current_node) none)
      else if t = "escalate" then
        .escalated (emitEvent s "plan_escalated" (some s.current_node) none)
      else .active s
    | none => .active s

/-- `_check_graph_progress`, the per-turn `advance` driver for graph plans:
increment both staleness counters, expire first, resolve plan and node
defensively, dispatch on the effective node type, then re-check the landing
node for a terminal. -/
def checkGraphProgress (lib : List (String × Plan)) (s : GState)
    (lastOutput : Option (List Char)) : StepResult :=
  let s := { s with turns_since_transition := s.turns_since_transition + 1,
                    turns_since_progress := s.turns_since_progress + 1 }
  if s.stale_after_turns < s.turns_since_transition then
    .expired (emitEvent s "plan_expired" (some s.current_node) none)
  else
    match alistGet s.plan_id lib with
    | none => .abandoned
    | some plan =>
      match plan.graph with
      | none => .abandoned
      | some g =>
        match alistGet s.current_node g.nodes with
        | none => .abandoned
        | some node =>
          if effType node = "exit" then
            .completed (emitEvent s "plan_completed" (some s.current_node) none)
          else if effType node = "escalate" then
            .escalated (emitEvent s "plan_escalated" (some s.current_node) none)
          else if effType node = "start" then
            .active (advanceFromStart g s)
          else if effType node = "task" then
            finalCheck g (handleTask g node s lastOutput)
          else if effType node = "decision" then
            finalCheck g (autoRoute g s)
          else
            finalCheck g s

-- ── Helper lemmas ──

theorem alistGet_alistSet_self {β : Type} (k : String) (v : β) (l : List (String × β)) :
    alistGet k (alistSet k v l) = some v := by
  induction l with
  | nil => simp [alistGet, alistSet]
  | cons h t ih =>
    obtain ⟨k', v'⟩ := h
    by_cases hk : k' = k
    · subst hk; simp [alistGet, alistSet]
    · simp [alistGet, alistSet, hk, ih]

theorem alistGet_mem {β : Type} {k : String} {v : β} {l : List (String × β)}
    (h : alistGet k l = some v) : (k, v) ∈ l := by
  induction l with
  | nil => simp [alistGet] at h
  | cons hd t ih =>
    obtain ⟨k', v'⟩ := hd
    by_cases hk : k' = k
    · subst hk
      simp [alistGet] at h
      simp [h]
    · simp [alistGet, hk] at h
      exact List.mem_cons_of_mem _ (ih h)

theorem emitEvent_visited (s : GState) (ty : String) (nd oc : Option String) :
    (emitEvent s ty nd oc).visited = s.visited := rfl

theorem emitEvent_core (s : GState) (ty : String) (nd oc : Option String) :
    (emitEvent s ty nd oc).plan_id = s.plan_id ∧
    (emitEvent s ty nd oc).total_nodes = s.total_nodes ∧
    (emitEvent s ty nd oc).steps_completed = s.steps_completed ∧
    (emitEvent s ty nd oc).completed_nodes = s.completed_nodes ∧
    (emitEvent s ty nd oc).stale_after_turns = s.stale_after_turns ∧
    (emitEvent s ty nd oc).path = s.path ∧
    (emitEvent s ty nd oc).current_node = s.current_node ∧
    (emitEvent s ty nd oc).turns_since_transition = s.turns_since_transition :=
  ⟨rfl, rfl, rfl, rfl, rfl, rfl, rfl, rfl⟩

theorem moveToNode_path (g : Graph) (s : GState) (fromNode toNode cond : String) :
    (moveToNode g s fromNode toNode cond).path = s.path ++ [toNode] := rfl

theorem moveToNode_current (g : Graph) (s : GState) (fromNode toNode cond : String) :
    (moveToNode g s fromNode toNode cond).current_node = toNode := rfl

theorem moveToNode_tst (g : Graph) (s : GState) (fromNode toNode cond : String) :
    (moveToNode g s fromNode toNode cond).turns_since_transition = 0 := rfl

theorem moveToNode_core (g : Graph) (s : GState) (fromNode toNode cond : String) :
    (moveToNode g s fromNode toNode cond).plan_id = s.plan_id ∧
    (moveToNode g s fromNode toNode cond).total_nodes = s.total_nodes ∧
    (moveToNode g s fromNode toNode cond).steps_completed = s.steps_completed ∧
    (moveToNode g s fromNode toNode cond).completed_nodes = s.completed_nodes ∧
    (moveToNode g s fromNode toNode cond).stale_after_turns = s.stale_after_turns :=
  ⟨rfl, rfl, rfl, rfl, rfl⟩

theorem autoRouteFuel_core (g : Graph) (fuel : Nat) (s : GState) :
    (autoRouteFuel g fuel s).plan_id = s.plan_id ∧
    (autoRouteFuel g fuel s).total_nodes = s.total_nodes ∧
    (autoRouteFuel g fuel s).steps_completed = s.steps_completed ∧
    (autoRouteFuel g fuel s).completed_nodes = s.completed_nodes ∧
    (autoRouteFuel g fuel s).stale_after_turns = s.stale_after_turns := by
  induction fuel generalizing s with
  | zero => exact ⟨rfl, rfl, rfl, rfl, rfl⟩
  | succ n ih =>
    simp only [autoRouteFuel]
    split
    · exact ⟨rfl, rfl, rfl, rfl, rfl⟩
    · split
      · split
        · exact ih _
        · exact ⟨rfl, rfl, rfl, rfl, rfl⟩
      · split
        · split
          · exact ih _
          · exact ⟨rfl, rfl, rfl, rfl, rfl⟩
        · split
          · split
            · exact ih _
            · exact ⟨rfl, rfl, rfl, rfl, rfl⟩
          · exact ⟨rfl, rfl, rfl, rfl, rfl⟩

theorem autoRouteFuel_path_le (g : Graph) (fuel : Nat) (s : GState) :
    (autoRouteFuel g fuel s).path.length ≤ s.path.length + fuel := by
  induction fuel generalizing s with
  | zero => simp [autoRouteFuel]
  | succ n ih =>
    simp only [autoRouteFuel]
    split
    · omega
    · split
      · split
        · calc (autoRouteFuel g n (moveToNode g s s.current_node _ (decisionCond s))).path.length
              ≤ (moveToNode g s s.current_node _ (decisionCond s)).path.length + n := ih _
          _ ≤ s.path.length + (n + 1) := by
              simp only [moveToNode_path, List.length_append, List.length_singleton]
              omega
        · omega
      · split
        · split
          · calc (autoRouteFuel g n (moveToNode g s s.current_node _ "always")).path.length
                ≤ (moveToNode g s s.current_node _ "always").path.length + n := ih _
            _ ≤ s.path.length + (n + 1) := by
                simp only [moveToNode_path, List.length_append, List.length_singleton]
                omega
          · omega
        · split
          · split
            · calc (autoRouteFuel g n (moveToNode g s s.current_node _ "always")).path.length
                  ≤ (moveToNode g s s.current_node _ "always").path.length + n := ih _
              _ ≤ s.path.length + (n + 1) := by
                  simp only [moveToNode_path, List.length_append, List.length_singleton]
                  omega
            · omega
          · omega

-- ── Concrete fixtures used by scenario conjuncts and witnesses ──

/-- Fallback state for `StepResult.stateD` on the defensive `abandoned`
branch (never reached in the concrete runs below). -/
def dummyState : GState := createGraphState "dummy" ⟨none, [], [], none, none, none⟩ ⟨[], [], ""⟩

/-- A one-node graph whose decision node routes to itself on `always` — the
misauthored cyclic graph of the depth-bound property. -/
def selfLoopGraph : Graph :=
  { nodes := [("d", ⟨some "decision", none, none⟩)]
    edges := [⟨some "d", "d", some "always"⟩]
    start := "d" }

def selfLoopPlan : Plan := ⟨none, [], [], none, some selfLoopGraph, none⟩

def selfLoopState : GState := createGraphState "p_loop" selfLoopPlan selfLoopGraph

/-- Scenario E graph: `start → A`, `A -(on_retry)→ B`, `B -(always)→ A`;
`A` wants `"alpha"` in the output with one retry, `B` wants `"beta"`. -/
def cycleGraph : Graph :=
  { nodes := [("s0", ⟨some "start", none, none⟩),
              ("A", ⟨some "task", some ⟨some "output_contains", some "alpha".toList⟩, some 1⟩),
              ("B", ⟨some "task", some ⟨some "output_contains", some "beta".toList⟩, some 0⟩)]
    edges := [⟨some "s0", "A", some "always"⟩,
              ⟨some "A", "B", some "on_retry"⟩,
              ⟨some "B", "A", some "always"⟩]
    start := "s0" }

def cyclePlan : Plan := ⟨none, [], [], none, some cycleGraph, none⟩

def cycleLib : List (String × Plan) := [("pe", cyclePlan)]

/-- Activation of the scenario E plan: lands on task `A`. -/
def cycleActivated : GState := activate "pe" cyclePlan cycleGraph

/-- Turn 1: `A` fails verification (`"x"` lacks `"alpha"`), retries remain,
the `on_retry` edge routes to `B`. -/
def cycleTurn1 : StepResult := checkGraphProgress cycleLib cycleActivated (some "x".toList)

/-- Turn 2: `B` succeeds (`"beta"`), the `always` edge routes back to `A`. -/
def cycleTurn2 : StepResult :=
  checkGraphProgress cycleLib (cycleTurn1.stateD dummyState) (some "beta".toList)

-- ── C3 ──

/-- Claim C3: every move resets the target node's visited entry to
`{outcome: pending, attempts: 0}` — an existing entry is literally
overwritten, an absent entry stays absent and reads as the same fresh
record through the `setdefault` default; so in the Scenario E cycle
(`A -(on_retry)→ B -(always)→ A`) the re-entered `A` starts with
`attempts = 0` even though its earlier visit failed with `attempts = 1`. -/
theorem c3_move_resets_visited_entry :
    (∀ (g : Graph) (s : GState) (fromNode toNode cond : String),
      alistGet toNode (moveToNode g s fromNode toNode cond).visited
        = (alistGet toNode s.visited).map (fun _ => freshVisit) ∧
      visitedEntry (moveToNode g s fromNode toNode cond) toNode = freshVisit) ∧
    visitedEntry (cycleTurn1.stateD dummyState) "A" = ⟨"pending", 1⟩ ∧
    (cycleTurn1.stateD dummyState).current_node = "B" ∧
    (cycleTurn2.stateD dummyState).current_node = "A" ∧
    alistGet "A" (cycleTurn2.stateD dummyState).visited = some ⟨"pending", 0⟩ := by
  refine ⟨fun g s fromNode toNode cond => ?_, by decide, by decide, by decide, by decide⟩
  have hv : (moveToNode g s fromNode toNode cond).visited =
      (match alistGet toNode s.visited with
       | some _ => alistSet toNode freshVisit s.visited
       | none => s.visited) := rfl
  constructor
  · rw [hv]
    cases h : alistGet toNode s.visited with
    | none => simp [h]
    | some v => simp [h, alistGet_alistSet_self]
  · unfold visitedEntry
    rw [hv]
    cases h : alistGet toNode s.visited with
    | none => simp [h]
    | some v => simp [h, alistGet_alistSet_self]

-- ── C8 ──

/-- Claim C8: auto-routing is a total function that performs at most
`MAX_ROUTE_DEPTH = 15` moves per invocation — the path grows by at most 15
entries — and on the decision node that routes to itself on `always` it
performs exactly 15 moves and stops. -/
theorem c8_auto_route_depth_bound :
    (∀ (g : Graph) (s : GState),
      (autoRoute g s).path.length ≤ s.path.length + MAX_ROUTE_DEPTH) ∧
    selfLoopState.path.length = 1 ∧
    (autoRoute selfLoopGraph selfLoopState).path.length = 16 := by
  exact ⟨fun g s => autoRouteFuel_path_le g MAX_ROUTE_DEPTH s, by decide, by decide⟩

-- ── C7 ──

/-- Claim C7: `_verify_node` semantics per spec type — case-insensitive
substring presence for `output_contains`, absence for
`output_not_contains`, the absence of `"error"`/`"exit code"` for
`exit_code_zero`, non-whitespace content (non-empty after trimming) for
`any_output`, and unconditional passes for `file_exists`, `manual` and a
missing verification spec. -/
theorem c7_verify_node_semantics :
    ∀ (nt : Option String) (mr : Option Nat) (v out : List Char) (vo : Option (List Char)),
      verifyNode ⟨nt, none, mr⟩ out = true ∧
      verifyNode ⟨nt, some ⟨some "output_contains", some v⟩, mr⟩ out
        = textIn (lowerText v) (lowerText out) ∧
      verifyNode ⟨nt, some ⟨some "output_not_contains", some v⟩, mr⟩ out
        = !(textIn (lowerText v) (lowerText out)) ∧
      verifyNode ⟨nt, some ⟨some "exit_code_zero", vo⟩, mr⟩ out
        = (!(textIn "error".toList (lowerText out))
            && !(textIn "exit code".toList (lowerText out))) ∧
      verifyNode ⟨nt, some ⟨some "any_output", vo⟩, mr⟩ out
        = out.any (fun c => !c.isWhitespace) ∧
      (verifyNode ⟨nt, some ⟨some "any_output", vo⟩, mr⟩ out = true
        ↔ out.dropWhile Char.isWhitespace ≠ []) ∧
      verifyNode ⟨nt, some ⟨some "file_exists", vo⟩, mr⟩ out = true ∧
      verifyNode ⟨nt, some ⟨some "manual", vo⟩, mr⟩ out = true := by
  intro nt mr v out vo
  refine ⟨rfl, rfl, rfl, rfl, rfl, ?_, rfl, rfl⟩
  show (out.any (fun c => !c.isWhitespace) = true ↔ _)
  simp only [List.any_eq_true, Bool.not_eq_true', ne_eq, List.dropWhile_eq_nil_iff]
  push_neg
  constructor
  · rintro ⟨c, hc, hw⟩
    exact ⟨c, hc, by simpa using hw⟩
  · rintro ⟨c, hc, hw⟩
    exact ⟨c, hc, by simpa using hw⟩

-- ── C10 ──

/-- Claim C10: a verification spec whose type is none of the six enumerated
types silently passes — `_verify_node` falls through every branch to the
final `return True`. -/
theorem c10_unknown_verify_type_passes :
    ∀ (nt : Option String) (mr : Option Nat) (ty : String) (vo : Option (List Char))
      (out : List Char),
      ty ∉ (["output_contains", "output_not_contains", "exit_code_zero",
             "any_output", "file_exists", "manual"] : List String) →
      verifyNode ⟨nt, some ⟨some ty, vo⟩, mr⟩ out = true := by
  intro nt mr ty vo out h
  simp only [List.mem_cons, List.mem_singleton, not_or] at h
  obtain ⟨h1, h2, h3, h4, h5, h6⟩ := h
  simp [verifyNode, h1, h2, h3, h4, h5, h6]

/-- Witness for C10 at the concrete unrecognized type `"frobnicate"`. -/
theorem c10_unknown_verify_type_passes_witness :
    verifyNode ⟨none, some ⟨some "frobnicate", none⟩, none⟩ "anything".toList = true :=
  c10_unknown_verify_type_passes none none "frobnicate" none "anything".toList (by decide)

-- ── Step-result inspectors and the no-output iterator ──

/-- Whether a step result left the plan active. -/
def StepResult.isActive : StepResult → Bool
  | .active _ => true
  | _ => false

/-- Whether a step result expired the plan. -/
def StepResult.isExpired : StepResult → Bool
  | .expired _ => true
  | _ => false

/-- `k` consecutive `advance` calls with no tool output, stopping at the
first call that clears the plan. -/
def advanceIterNone (lib : List (String × Plan)) : Nat → GState → StepResult
  | 0, s => .active s
  | k + 1, s =>
    match advanceIterNone lib k s with
    | .active s' => checkGraphProgress lib s' none
    | r => r

-- ── Event-log helper lemmas ──

theorem emitEvent_mem_self (s : GState) (ty : String) (nd oc : Option String) :
    (⟨ty, s.turns_since_transition, nd, oc⟩ : Event) ∈ (emitEvent s ty nd oc).events := by
  unfold emitEvent
  set e : Event := ⟨ty, s.turns_since_transition, nd, oc⟩ with he
  simp only
  split
  · rw [List.drop_append_of_le_length
      (by simp only [List.length_append, List.length_singleton, MAX_EVENTS]; omega)]
    exact List.mem_append_right _ (List.mem_singleton.mpr rfl)
  · exact List.mem_append_right _ (List.mem_singleton.mpr rfl)

-- ── Per-turn driver lemmas ──

/-- With the staleness check passing, a resolvable plan and graph, a current
node of effective type `task` and no tool output this turn, the advance call
only increments the two counters. -/
theorem cgp_no_output_active (lib : List (String × Plan)) (s : GState) (p : Plan)
    (g : Graph) (n : GNode)
    (hst : ¬ s.stale_after_turns < s.turns_since_transition + 1)
    (hp : alistGet s.plan_id lib = some p) (hg : p.graph = some g)
    (hn : alistGet s.current_node g.nodes = some n) (ht : effType n = "task") :
    checkGraphProgress lib s none = .active
      { s with turns_since_transition := s.turns_since_transition + 1,
               turns_since_progress := s.turns_since_progress + 1 } := by
  simp only [checkGraphProgress, hst, if_false, hp, hg, hn, ht]
  simp only [handleTask]
  cases hnt : n.ntype with
  | none => simp [finalCheck, hn, hnt]
  | some t =>
    have : t = "task" := by simpa [effType, hnt] using ht
    subst this
    simp [finalCheck, hn, hnt]

/-- Expiry is checked first: whenever the incremented transition counter
exceeds the staleness window the call expires the plan at once, emitting
`plan_expired`, regardless of plan, node or output. -/
theorem cgp_expires (lib : List (String × Plan)) (s : GState) (out : Option (List Char))
    (hst : s.stale_after_turns < s.turns_since_transition + 1) :
    checkGraphProgress lib s out = .expired
      (emitEvent { s with turns_since_transition := s.turns_since_transition + 1,
                          turns_since_progress := s.turns_since_progress + 1 }
        "plan_expired" (some s.current_node) none) := by
  simp only [checkGraphProgress, hst, if_true]

/-- Iterating no-output advances: while `k` stays within the window the plan
stays active with the counters advanced by exactly `k`. -/
theorem advanceIterNone_active (lib : List (String × Plan)) (s : GState) (p : Plan)
    (g : Graph) (n : GNode)
    (hp : alistGet s.plan_id lib = some p) (hg : p.graph = some g)
    (hn : alistGet s.current_node g.nodes = some n) (ht : effType n = "task") :
    ∀ k, s.turns_since_transition + k ≤ s.stale_after_turns →
      advanceIterNone lib k s = .active
        { s with turns_since_transition := s.turns_since_transition + k,
                 turns_since_progress := s.turns_since_progress + k } := by
  intro k
  induction k with
  | zero => intro _; rfl
  | succ m ih =>
    intro hk
    have hm : s.turns_since_transition + m ≤ s.stale_after_turns := by omega
    simp only [advanceIterNone, ih hm]
    exact cgp_no_output_active lib _ p g n (by simp; omega) (by simpa using hp)
      hg (by simpa using hn) ht

-- ── C1 fixtures: Scenario D (window 2) ──

/-- Scenario D graph: `start → A` with task `A` and no other edges. -/
def staleGraph : Graph :=
  { nodes := [("s0", ⟨some "start", none, none⟩), ("A", ⟨some "task", none, some 0⟩)]
    edges := [⟨some "s0", "A", some "always"⟩]
    start := "s0" }

/-- Scenario D plan: `stale_after_turns = 2`. -/
def stalePlan : Plan := ⟨none, [], [], none, some staleGraph, some 2⟩

def staleLib : List (String × Plan) := [("pd", stalePlan)]

def staleActivated : GState := activate "pd" stalePlan staleGraph

def staleStep1 : StepResult := checkGraphProgress staleLib staleActivated none

def staleStep2 : StepResult := checkGraphProgress staleLib (staleStep1.stateD dummyState) none

def staleStep3 : StepResult := checkGraphProgress staleLib (staleStep2.stateD dummyState) none

-- ── C1 ──

/-- Claim C1: each graph advance first increments `turns_since_transition`
and `turns_since_progress`; once the incremented transition counter exceeds
the plan's `stale_after_turns` window the call emits `plan_expired` and
destroys the state before any other processing; every move resets
`turns_since_transition` to 0 and a moveless advance increments it by
exactly 1; hence from a fresh transition counter, `w` no-output advances
stay active with counter `k` after call `k`, call `w + 1` expires the plan,
and in Scenario D (window 2) the third advance expires it. -/
theorem c1_staleness_expiry :
    (∀ (lib : List (String × Plan)) (s : GState) (out : Option (List Char)),
      s.stale_after_turns < s.turns_since_transition + 1 →
      checkGraphProgress lib s out = .expired
        (emitEvent { s with turns_since_transition := s.turns_since_transition + 1,
                            turns_since_progress := s.turns_since_progress + 1 }
          "plan_expired" (some s.current_node) none)) ∧
    (∀ (g : Graph) (s : GState) (fromNode toNode cond : String),
      (moveToNode g s fromNode toNode cond).turns_since_transition = 0) ∧
    (∀ (lib : List (String × Plan)) (s : GState) (p : Plan) (g : Graph) (n : GNode),
      ¬ s.stale_after_turns < s.turns_since_transition + 1 →
      alistGet s.plan_id lib = some p → p.graph = some g →
      alistGet s.current_node g.nodes = some n → effType n = "task" →
      checkGraphProgress lib s none = .active
        { s with turns_since_transition := s.turns_since_transition + 1,
                 turns_since_progress := s.turns_since_progress + 1 }) ∧
    (∀ (lib : List (String × Plan)) (s : GState) (p : Plan) (g : Graph) (n : GNode),
      alistGet s.plan_id lib = some p → p.graph = some g →
      alistGet s.current_node g.nodes = some n → effType n = "task" →
      s.turns_since_transition = 0 →
      (∀ k, k ≤ s.stale_after_turns →
        advanceIterNone lib k s = .active
          { s with turns_since_transition := k,
                   turns_since_progress := s.turns_since_progress + k }) ∧
      (∃ s', advanceIterNone lib (s.stale_after_turns + 1) s = .expired s' ∧
        s'.turns_since_transition = s.stale_after_turns + 1 ∧
        (⟨"plan_expired", s.stale_after_turns + 1, some s.current_node, none⟩ : Event)
          ∈ s'.events)) ∧
    (staleStep1.isActive = true ∧ (staleStep1.stateD dummyState).turns_since_transition = 1 ∧
     staleStep2.isActive = true ∧ (staleStep2.stateD dummyState).turns_since_transition = 2 ∧
     staleStep3.isExpired = true ∧
     (staleStep3.events.map Event.etype).getLast? = some "plan_expired") := by
  refine ⟨fun lib s out h => cgp_expires lib s out h,
          fun g s f t c => moveToNode_tst g s f t c,
          fun lib s p g n hst hp hg hn ht => cgp_no_output_active lib s p g n hst hp hg hn ht,
          ?_, by decide, by decide, by decide, by decide, by decide, by decide⟩
  intro lib s p g n hp hg hn ht htst
  constructor
  · intro k hk
    have := advanceIterNone_active lib s p g n hp hg hn ht k (by omega)
    rw [this, htst]
    simp
  · have hw : advanceIterNone lib s.stale_after_turns s = .active
        { s with turns_since_transition := s.turns_since_transition + s.stale_after_turns,
                 turns_since_progress := s.turns_since_progress + s.stale_after_turns } :=
      advanceIterNone_active lib s p g n hp hg hn ht s.stale_after_turns (by omega)
    simp only [advanceIterNone, hw]
    set sw : GState :=
      { s with turns_since_transition := s.turns_since_transition + s.stale_after_turns,
               turns_since_progress := s.turns_since_progress + s.stale_after_turns } with hsw
    have hexp := cgp_expires lib sw none (by simp [hsw, htst])
    refine ⟨_, hexp, ?_, ?_⟩
    · simp [emitEvent, hsw, htst]
    · have := emitEvent_mem_self
        { sw with turns_since_transition := sw.turns_since_transition + 1,
                  turns_since_progress := sw.turns_since_progress + 1 }
        "plan_expired" (some sw.current_node) none
      simpa [hsw, htst] using this

/-- Witness for C1 discharging its hypotheses on the Scenario D fixture:
the expiry conjunct at a state one past its window, and the iteration
conjunct on the activated window-2 plan. -/
theorem c1_staleness_expiry_witness :
    staleActivated.turns_since_transition = 0 ∧
    advanceIterNone staleLib 3 staleActivated ≠ .abandoned := by
  have h := (c1_staleness_expiry.2.2.2.1 staleLib staleActivated stalePlan staleGraph
    ⟨some "task", none, some 0⟩ (by decide) (by decide) (by decide) (by decide) (by decide)).2
  obtain ⟨s', hs', _, _⟩ := h
  refine ⟨by decide, ?_⟩
  have hw : staleActivated.stale_after_turns + 1 = 3 := by decide
  rw [hw] at hs'
  rw [hs']
  intro hcon
  exact StepResult.noConfusion hcon

-- ── `execute` exception handling (C9) ──

/-- A log entry as `agent.context.log.log(type=..., content=...)` receives
it. -/
structure LogEntry where
  level : String
  msg : String
deriving DecidableEq

/-- Outcome of running a block of Python: a normal value, or an exception
(message) escaping the block.  Both constructors carry the world as already
mutated in place when the block finished or was interrupted — Python's
`try/except` rolls nothing back. -/
inductive PyResult (α : Type) where
  | ok : α → PyResult α
  | raised : String → α → PyResult α

/-- The `try/except` skeleton of `HTNPlanSelector.execute`: the whole body
runs under one outer `except Exception` whose handler logs a warning, and
that log call itself sits in an inner `try/except: pass`.  `body` is the
entire guarded block (lines 45–85), `logOp` the logging sink; the world is
split into engine state and log so that the handler visibly touches only
the log. -/
def executeEntry {St : Type} (body : St × List LogEntry → PyResult (St × List LogEntry))
    (logOp : LogEntry → List LogEntry → PyResult (List LogEntry))
    (w : St × List LogEntry) : PyResult (St × List LogEntry) :=
  match body w with
  | .ok w' => .ok w'
  | .raised e w' =>
    match logOp ⟨"warning", "[HTN] Error (passthrough): " ++ e⟩ w'.2 with
    | .ok l2 => .ok (w'.1, l2)
    | .raised _ l2 => .ok (w'.1, l2)

/-- A well-behaved append-only logging sink. -/
def appendLog (e : LogEntry) (l : List LogEntry) : PyResult (List LogEntry) :=
  .ok (l ++ [e])

-- ── C9 ──

/-- Claim C9: `execute` never propagates an exception — for every body and
even for a logging sink that itself raises, the entry point returns
normally; when the body raises, the engine state is left exactly as the
body's in-place mutations left it (passthrough), and with a well-behaved
sink the handler appends one warning-level entry naming the error. -/
theorem c9_execute_never_propagates :
    ∀ (St : Type) (body : St × List LogEntry → PyResult (St × List LogEntry))
      (logOp : LogEntry → List LogEntry → PyResult (List LogEntry))
      (w : St × List LogEntry),
      (∃ w', executeEntry body logOp w = .ok w') ∧
      (∀ e s' l', body w = .raised e (s', l') →
        ∃ l2, executeEntry body logOp w = .ok (s', l2)) ∧
      (∀ e s' l', body w = .raised e (s', l') →
        executeEntry body appendLog w
          = .ok (s', l' ++ [⟨"warning", "[HTN] Error (passthrough): " ++ e⟩])) := by
  intro St body logOp w
  refine ⟨?_, ?_, ?_⟩
  · cases hb : body w with
    | ok w' => exact ⟨w', by simp [executeEntry, hb]⟩
    | raised e w' =>
      cases hl : logOp ⟨"warning", "[HTN] Error (passthrough): " ++ e⟩ w'.2 with
      | ok l2 => exact ⟨(w'.1, l2), by simp [executeEntry, hb, hl]⟩
      | raised x l2 => exact ⟨(w'.1, l2), by simp [executeEntry, hb, hl]⟩
  · intro e s' l' hb
    cases hl : logOp ⟨"warning", "[HTN] Error (passthrough): " ++ e⟩ l' with
    | ok l2 => exact ⟨l2, by simp [executeEntry, hb, hl]⟩
    | raised x l2 => exact ⟨l2, by simp [executeEntry, hb, hl]⟩
  · intro e s' l' hb
    simp [executeEntry, hb, appendLog]

/-- Witness for C9: a body that raises `"boom"` after half-updating the
state to `7` still yields a normal return carrying state `7` and the
warning entry. -/
theorem c9_execute_never_propagates_witness :
    executeEntry (fun _ => PyResult.raised "boom" ((7 : Nat), [])) appendLog ((0 : Nat), [])
      = .ok (7, [⟨"warning", "[HTN] Error (passthrough): boom"⟩]) := by
  have h := (c9_execute_never_propagates Nat
    (fun _ => PyResult.raised "boom" ((7 : Nat), [])) appendLog ((0 : Nat), [])).2.2
    "boom" 7 [] rfl
  simpa using h

-- ── Auto-routing stop analysis (C5) ──

/-- The landing states auto-routing is meant to reach: the current node
resolves and is effectively a `task`, `exit` or `escalate` node. -/
def actionable (g : Graph) (s : GState) : Prop :=
  ∃ n, alistGet s.current_node g.nodes = some n ∧
    (effType n = "task" ∨ effType n = "exit" ∨ effType n = "escalate")

/-- The abnormal stops of auto-routing: the current node id does not
resolve, a route-through node has no matching edge, or the node carries a
type outside the six-value enum. -/
def routeStuck (g : Graph) (s : GState) : Prop :=
  alistGet s.current_node g.nodes = none ∨
  (∃ n, alistGet s.current_node g.nodes = some n ∧
    ((effType n = "decision" ∧
        followEdge g s.current_node (decisionCond s) "always" "" = none) ∨
     ((effType n = "start" ∨ effType n = "checkpoint") ∧
        followEdge g s.current_node "always" "" "" = none) ∨
     effType n ∉ (["task", "exit", "escalate",
                   "start", "decision", "checkpoint"] : List String)))

theorem autoRouteFuel_stops (g : Graph) (fuel : Nat) (s : GState) :
    actionable g (autoRouteFuel g fuel s) ∨ routeStuck g (autoRouteFuel g fuel s) ∨
    (autoRouteFuel g fuel s).path.length = s.path.length + fuel := by
  induction fuel generalizing s with
  | zero => exact Or.inr (Or.inr rfl)
  | succ m ih =>
    simp only [autoRouteFuel]
    split
    · next heq => exact Or.inr (Or.inl (Or.inl heq))
    · next node heq =>
      split
      · next hdec =>
        split
        · next t hf =>
          rcases ih (moveToNode g s s.current_node t (decisionCond s)) with h | h | h
          · exact Or.inl h
          · exact Or.inr (Or.inl h)
          · refine Or.inr (Or.inr ?_)
            rw [h, moveToNode_path]
            simp only [List.length_append, List.length_singleton]
            omega
        · next hf => exact Or.inr (Or.inl (Or.inr ⟨node, heq, Or.inl ⟨hdec, hf⟩⟩))
      · next hdec =>
        split
        · next hstart =>
          split
          · next t hf =>
            rcases ih (moveToNode g s s.current_node t "always") with h | h | h
            · exact Or.inl h
            · exact Or.inr (Or.inl h)
            · refine Or.inr (Or.inr ?_)
              rw [h, moveToNode_path]
              simp only [List.length_append, List.length_singleton]
              omega
          · next hf =>
            exact Or.inr (Or.inl (Or.inr ⟨node, heq, Or.inr (Or.inl ⟨Or.inl hstart, hf⟩)⟩))
        · next hstart =>
          split
          · next hchk =>
            split
            · next t hf =>
              rcases ih (moveToNode g s s.current_node t "always") with h | h | h
              · exact Or.inl h
              · exact Or.inr (Or.inl h)
              · refine Or.inr (Or.inr ?_)
                rw [h, moveToNode_path]
                simp only [List.length_append, List.length_singleton]
                omega
            · next hf =>
              exact Or.inr
                (Or.inl (Or.inr ⟨node, heq, Or.inr (Or.inl ⟨Or.inr hchk, hf⟩)⟩))
          · next hchk =>
            by_cases hact : effType node = "task" ∨ effType node = "exit" ∨
                effType node = "escalate"
            · exact Or.inl ⟨node, heq, hact⟩
            · refine Or.inr (Or.inl (Or.inr ⟨node, heq, Or.inr (Or.inr ?_)⟩))
              push_neg at hact
              simp only [List.mem_cons, List.mem_singleton, not_or]
              exact ⟨hact.1, hact.2.1, hact.2.2, hstart, hdec, hchk, by simp⟩

-- ── C5 fixtures and theorems ──

/-- A plan whose graph is a lone start node with no edges: activation cannot
leave it. -/
def soloStartGraph : Graph :=
  { nodes := [("s0", ⟨some "start", none, none⟩)], edges := [], start := "s0" }

def soloStartPlan : Plan := ⟨none, [], [], none, some soloStartGraph, none⟩

/-- Counterexample to C5 as stated: activating the plan whose start node has
no outgoing edge leaves `current_node` on a node of type `start`, so
activation does not always land on a task, exit or escalate node. -/
theorem c5_activation_counterexample :
    (activate "p5" soloStartPlan soloStartGraph).current_node = "s0" ∧
    (alistGet (activate "p5" soloStartPlan soloStartGraph).current_node
        soloStartGraph.nodes).map effType = some "start" := by
  exact ⟨by decide, by decide⟩

/-- Claim C5 (amended): after activation the traversal either landed on a
task/exit/escalate node, or it stopped abnormally — the start id has no
resolvable `always` edge and `current_node` is still the start id, a routed
node id does not resolve, a route-through node has no matching edge, the
node type is outside the enum, or the depth ceiling was reached after
exactly `1 + 1 + 15 = 17` path entries. -/
theorem c5_activation_lands_or_stalls :
    ∀ (pid : String) (plan : Plan) (g : Graph),
      actionable g (activate pid plan g) ∨ routeStuck g (activate pid plan g) ∨
      (followEdge g g.start "always" "" "" = none ∧
        (activate pid plan g).current_node = g.start) ∨
      (activate pid plan g).path.length = 17 := by
  intro pid plan g
  cases hf : followEdge g g.start "always" "" "" with
  | none =>
    have hcur : (activate pid plan g).current_node = g.start := by
      unfold activate advanceFromStart
      rw [hf]
      rfl
    exact Or.inr (Or.inr (Or.inl ⟨rfl, hcur⟩))
  | some t =>
    have hact : activate pid plan g = autoRouteFuel g MAX_ROUTE_DEPTH
        (moveToNode g
          (emitEvent (createGraphState pid plan g) "node_entered" (some g.start) none)
          g.start t "always") := by
      unfold activate advanceFromStart autoRoute
      rw [hf]
    rcases autoRouteFuel_stops g MAX_ROUTE_DEPTH
        (moveToNode g
          (emitEvent (createGraphState pid plan g) "node_entered" (some g.start) none)
          g.start t "always") with h | h | h
    · exact Or.inl (hact ▸ h)
    · exact Or.inr (Or.inl (hact ▸ h))
    · refine Or.inr (Or.inr (Or.inr ?_))
      rw [hact, h, moveToNode_path]
      rfl

-- ── Bounded event-log membership (distance from the end survives the trim) ──

/-- `x` is among the last `k` entries of `l`. -/
def evMemLast (x : Event) (k : Nat) (l : List Event) : Prop :=
  x ∈ l.reverse.take k

theorem mem_take_mono {α : Type} {x : α} :
    ∀ (r : List α) (k k2 : Nat), k ≤ k2 → x ∈ r.take k → x ∈ r.take k2 := by
  intro r
  induction r with
  | nil => intro k k2 _ h; simp at h
  | cons a t ih =>
    intro k k2 hk h
    cases k with
    | zero => simp at h
    | succ m =>
      cases k2 with
      | zero => omega
      | succ m2 =>
        simp only [List.take_succ_cons, List.mem_cons] at h ⊢
        rcases h with h | h
        · exact Or.inl h
        · exact Or.inr (ih m m2 (by omega) h)

theorem evMemLast_mono {x : Event} {k k2 : Nat} {l : List Event} (hk : k ≤ k2)
    (h : evMemLast x k l) : evMemLast x k2 l :=
  mem_take_mono _ k k2 hk h

theorem evMemLast_mem {x : Event} {k : Nat} {l : List Event} (h : evMemLast x k l) : x ∈ l :=
  List.mem_reverse.mp (List.take_subset k l.reverse h)

/-- The trimmed event log is the last `MAX_EVENTS` entries of the appended
log, i.e. reversed it is a `take`. -/
theorem emitEvent_events_reverse (s : GState) (ty : String) (nd oc : Option String) :
    (emitEvent s ty nd oc).events.reverse
      = ((s.events ++ [(⟨ty, s.turns_since_transition, nd, oc⟩ : Event)]).reverse).take
          MAX_EVENTS := by
  unfold emitEvent
  simp only
  split
  · next h =>
    show ((s.events ++ [(⟨ty, s.turns_since_transition, nd, oc⟩ : Event)]).rtake
        MAX_EVENTS).reverse = _
    rw [List.rtake_eq_reverse_take_reverse, List.reverse_reverse]
  · next h =>
    rw [eq_comm]
    apply List.take_of_length_le
    simp only [List.length_reverse]
    omega

theorem evMemLast_emit_self (s : GState) (ty : String) (nd oc : Option String) :
    evMemLast ⟨ty, s.turns_since_transition, nd, oc⟩ 1 (emitEvent s ty nd oc).events := by
  unfold evMemLast
  rw [emitEvent_events_reverse, List.take_take]
  have hmin : min 1 MAX_EVENTS = 1 := rfl
  rw [hmin, List.reverse_append]
  simp

theorem evMemLast_emit_step {x : Event} {k : Nat} {s : GState} (ty : String)
    (nd oc : Option String) (hk : k + 1 ≤ MAX_EVENTS) (h : evMemLast x k s.events) :
    evMemLast x (k + 1) (emitEvent s ty nd oc).events := by
  unfold evMemLast
  rw [emitEvent_events_reverse, List.take_take]
  have hmin : min (k + 1) MAX_EVENTS = k + 1 := by omega
  rw [hmin, List.reverse_append]
  simp only [List.reverse_singleton, List.singleton_append, List.take_succ_cons,
    List.mem_cons]
  exact Or.inr h

theorem evMemLast_move_step {x : Event} {k : Nat} (g : Graph) (s : GState)
    (fromNode toNode cond : String) (hk : k + 2 ≤ MAX_EVENTS) (h : evMemLast x k s.events) :
    evMemLast x (k + 2) (moveToNode g s fromNode toNode cond).events := by
  unfold moveToNode
  simp only
  have h1 : evMemLast x (k + 1) (emitEvent
      { s with current_node := toNode, path := s.path ++ [toNode],
               turns_since_transition := 0,
               visited := (match alistGet toNode s.visited with
                           | some _ => alistSet toNode ⟨"pending", 0⟩ s.visited
                           | none => s.visited) } "edge_followed" none none).events :=
    evMemLast_emit_step _ _ _ (by omega) h
  exact evMemLast_emit_step _ _ _ hk h1

theorem evMemLast_route_step {x : Event} (g : Graph) :
    ∀ (fuel : Nat) (k : Nat) (s : GState), k + 2 * fuel ≤ MAX_EVENTS →
      evMemLast x k s.events →
      evMemLast x (k + 2 * fuel) (autoRouteFuel g fuel s).events := by
  intro fuel
  induction fuel with
  | zero => intro k s _ h; simpa using h
  | succ m ih =>
    intro k s hk h
    simp only [autoRouteFuel]
    split
    · exact evMemLast_mono (by omega) h
    · next node heq =>
      split
      · split
        · next t hf =>
          have h2 := evMemLast_move_step g s s.current_node t (decisionCond s)
            (by omega) h
          have h3 := ih (k + 2) _ (by omega) h2
          exact evMemLast_mono (by omega) h3
        · exact evMemLast_mono (by omega) h
      · split
        · split
          · next t hf =>
            have h2 := evMemLast_move_step g s s.current_node t "always" (by omega) h
            have h3 := ih (k + 2) _ (by omega) h2
            exact evMemLast_mono (by omega) h3
          · exact evMemLast_mono (by omega) h
        · split
          · split
            · next t hf =>
              have h2 := evMemLast_move_step g s s.current_node t "always" (by omega) h
              have h3 := ih (k + 2) _ (by omega) h2
              exact evMemLast_mono (by omega) h3
            · exact evMemLast_mono (by omega) h
          · exact evMemLast_mono (by omega) h

/-- The trailing terminal re-check adds at most one event, so membership
within budget survives into the step result. -/
theorem finalCheck_event_mem {x : Event} {k : Nat} (g : Graph) (s : GState)
    (hk : k + 1 ≤ MAX_EVENTS) (h : evMemLast x k s.events) :
    x ∈ (finalCheck g s).events := by
  unfold finalCheck
  split
  · exact evMemLast_mem h
  · split
    · split
      · exact evMemLast_mem (evMemLast_emit_step _ _ _ hk h)
      · split
        · exact evMemLast_mem (evMemLast_emit_step _ _ _ hk h)
        · exact evMemLast_mem h
    · exact evMemLast_mem h

-- ── Edge-resolution and path-extension lemmas (C4) ──

/-- With no caller-supplied fallbacks, `_follow_edge` returns nothing
exactly when the node has neither an edge with the requested condition nor
an `always` edge. -/
theorem followEdge_no_fallback (g : Graph) (a c : String) :
    followEdge g a c "" "" = none ↔
      condTarget g a c = none ∧ condTarget g a "always" = none := by
  unfold followEdge condTarget
  simp only [if_pos rfl]
  cases h1 : (edgesFrom g a).find? (fun e => decide (e.cond.getD "always" = c)) with
  | some e => simp [h1]
  | none =>
    cases h2 : (edgesFrom g a).find? (fun e => decide (e.cond.getD "always" = "always")) with
    | some e => simp [h1, h2]
    | none => simp [h1, h2]

/-- Conversely, an existing edge with the requested condition is followed to
its target. -/
theorem followEdge_primary (g : Graph) (a c f1 f2 : String) (t : String)
    (h : condTarget g a c = some t) : followEdge g a c f1 f2 = some t := by
  unfold followEdge
  unfold condTarget at h
  cases h1 : (edgesFrom g a).find? (fun e => decide (e.cond.getD "always" = c)) with
  | some e => simp [h1] at h ⊢; exact h
  | none => simp [h1] at h

theorem autoRouteFuel_path_extends (g : Graph) :
    ∀ (fuel : Nat) (s : GState), ∃ ext, (autoRouteFuel g fuel s).path = s.path ++ ext := by
  intro fuel
  induction fuel with
  | zero => intro s; exact ⟨[], by simp [autoRouteFuel]⟩
  | succ m ih =>
    intro s
    simp only [autoRouteFuel]
    split
    · exact ⟨[], by simp⟩
    · next node heq =>
      split
      · split
        · next t hf =>
          obtain ⟨ext, hext⟩ := ih (moveToNode g s s.current_node t (decisionCond s))
          exact ⟨t :: ext, by rw [hext, moveToNode_path]; simp⟩
        · exact ⟨[], by simp⟩
      · split
        · split
          · next t hf =>
            obtain ⟨ext, hext⟩ := ih (moveToNode g s s.current_node t "always")
            exact ⟨t :: ext, by rw [hext, moveToNode_path]; simp⟩
          · exact ⟨[], by simp⟩
        · split
          · split
            · next t hf =>
              obtain ⟨ext, hext⟩ := ih (moveToNode g s s.current_node t "always")
              exact ⟨t :: ext, by rw [hext, moveToNode_path]; simp⟩
            · exact ⟨[], by simp⟩
          · exact ⟨[], by simp⟩

/-- The terminal re-check never abandons and never changes the path of the
state it wraps. -/
theorem finalCheck_stateD_path (g : Graph) (s : GState) (d : GState) :
    finalCheck g s ≠ .abandoned ∧ ((finalCheck g s).stateD d).path = s.path := by
  unfold finalCheck
  split
  · exact ⟨fun h => StepResult.noConfusion h, rfl⟩
  · split
    · split
      · exact ⟨fun h => StepResult.noConfusion h, rfl⟩
      · split
        · exact ⟨fun h => StepResult.noConfusion h, rfl⟩
        · exact ⟨fun h => StepResult.noConfusion h, rfl⟩
    · exact ⟨fun h => StepResult.noConfusion h, rfl⟩

/-- Under a resolvable plan and a current task node (staleness passing), the
advance call is exactly the task handler followed by the terminal
re-check. -/
theorem cgp_task (lib : List (String × Plan)) (s : GState) (p : Plan) (g : Graph)
    (n : GNode) (out : Option (List Char))
    (hst : ¬ s.stale_after_turns < s.turns_since_transition + 1)
    (hp : alistGet s.plan_id lib = some p) (hg : p.graph = some g)
    (hn : alistGet s.current_node g.nodes = some n) (ht : effType n = "task") :
    checkGraphProgress lib s out = finalCheck g (handleTask g n
      { s with turns_since_transition := s.turns_since_transition + 1,
               turns_since_progress := s.turns_since_progress + 1 } out) := by
  simp only [checkGraphProgress, hst, if_false, hp, hg, hn, ht]
  rw [if_neg (by decide), if_neg (by decide), if_neg (by decide)]
  simp

/-- The retry branch of the task handler: verification failed with attempts
within budget.  `retry_triggered` is emitted; the traversal then follows an
`on_retry` edge if `_follow_edge` finds one (an `always` edge serving as
last resort), else holds position. -/
theorem handleTask_retry_case (g : Graph) (n : GNode) (s : GState) (out : List Char)
    (hv : verifyNode n out = false)
    (hatt : (visitedEntry s s.current_node).attempts + 1 ≤ n.max_retries.getD 0) :
    evMemLast ⟨"retry_triggered", s.turns_since_transition, some s.current_node, none⟩ 33
      (handleTask g n s (some out)).events ∧
    (followEdge g s.current_node "on_retry" "" "" = none →
      (handleTask g n s (some out)).current_node = s.current_node ∧
      (handleTask g n s (some out)).path = s.path) ∧
    (∀ t, followEdge g s.current_node "on_retry" "" "" = some t →
      ∃ ext, (handleTask g n s (some out)).path = (s.path ++ [t]) ++ ext) := by
  have hred : handleTask g n s (some out) =
      (match followEdge g s.current_node "on_retry" "" "" with
       | some t => autoRoute g (moveToNode g
           (emitEvent (emitEvent
             { s with visited := (alistSet s.current_node
                 ⟨(visitedEntry s s.current_node).outcome,
                  (visitedEntry s s.current_node).attempts + 1⟩ s.visited) }
             "node_verified" (some s.current_node) (some "fail"))
             "retry_triggered" (some s.current_node) none)
           s.current_node t "on_retry")
       | none => emitEvent (emitEvent
           { s with visited := (alistSet s.current_node
               ⟨(visitedEntry s s.current_node).outcome,
                (visitedEntry s s.current_node).attempts + 1⟩ s.visited) }
           "node_verified" (some s.current_node) (some "fail"))
           "retry_triggered" (some s.current_node) none) := by
    simp only [handleTask, hv, Bool.false_eq_true, if_false]
    rw [if_pos hatt]
    rfl
  have hself : evMemLast
      ⟨"retry_triggered", s.turns_since_transition, some s.current_node, none⟩ 1
      (emitEvent (emitEvent
        { s with visited := (alistSet s.current_node
            ⟨(visitedEntry s s.current_node).outcome,
             (visitedEntry s s.current_node).attempts + 1⟩ s.visited) }
        "node_verified" (some s.current_node) (some "fail"))
        "retry_triggered" (some s.current_node) none).events :=
    evMemLast_emit_self _ "retry_triggered" (some s.current_node) none
  cases hf : followEdge g s.current_node "on_retry" "" "" with
  | none =>
    simp only [hf] at hred
    refine ⟨?_, fun _ => ⟨?_, ?_⟩, fun t2 ht2 => absurd ht2 (by simp)⟩
    · rw [hred]
      exact evMemLast_mono (by omega) hself
    · rw [hred]
      rfl
    · rw [hred]
      rfl
  | some t =>
    simp only [hf] at hred
    refine ⟨?_, fun hcon => absurd hcon (by simp), fun t2 ht2 => ?_⟩
    · rw [hred]
      have h3 := evMemLast_move_step g _ s.current_node t "on_retry" (by decide) hself
      exact evMemLast_route_step g MAX_ROUTE_DEPTH 3 _ (by decide) h3
    · obtain rfl : t = t2 := Option.some_injective _ ht2
      rw [hred]
      obtain ⟨ext, hext⟩ := autoRouteFuel_path_extends g MAX_ROUTE_DEPTH
        (moveToNode g (emitEvent (emitEvent
          { s with visited := (alistSet s.current_node
              ⟨(visitedEntry s s.current_node).outcome,
               (visitedEntry s s.current_node).attempts + 1⟩ s.visited) }
          "node_verified" (some s.current_node) (some "fail"))
          "retry_triggered" (some s.current_node) none) s.current_node t "on_retry")
      refine ⟨ext, ?_⟩
      show (autoRouteFuel g MAX_ROUTE_DEPTH _).path = _
      rw [hext, moveToNode_path]
      rfl

-- ── C4 fixtures and theorems ──

/-- C4 graph: task `A` (wants `"ok"`, one retry) has no `on_retry` edge,
only an `always` edge to task `B`. -/
def retryGraph : Graph :=
  { nodes := [("s0", ⟨some "start", none, none⟩),
              ("A", ⟨some "task", some ⟨some "output_contains", some "ok".toList⟩, some 1⟩),
              ("B", ⟨some "task", none, none⟩)]
    edges := [⟨some "s0", "A", some "always"⟩, ⟨some "A", "B", some "always"⟩]
    start := "s0" }

def retryPlan : Plan := ⟨none, [], [], none, some retryGraph, none⟩

def retryLib : List (String × Plan) := [("p4", retryPlan)]

def retryActivated : GState := activate "p4" retryPlan retryGraph

def retryStep : StepResult := checkGraphProgress retryLib retryActivated (some "bad".toList)

/-- Counterexample to C4 as stated: node `A` has no `on_retry` edge, yet
after a failed verification with retries remaining the traversal does not
stay on `A` — `_follow_edge`'s unconditional `always` fallback moves it to
`B`. -/
theorem c4_retry_counterexample :
    condTarget retryGraph "A" "on_retry" = none ∧
    retryActivated.current_node = "A" ∧
    (retryStep.stateD dummyState).current_node = "B" ∧
    retryStep.isActive = true := by
  exact ⟨by decide, by decide, by decide, by decide⟩

/-- Claim C4 (amended): on a failed verification with attempts within the
retry budget the engine emits `retry_triggered` and follows an `on_retry`
edge if one exists; with no `on_retry` edge it falls back to an `always`
edge from the node; only when neither exists does the traversal remain on
the node (same `current_node`, same path) for another attempt. -/
theorem c4_retry_follows_on_retry_then_always :
    (∀ (g : Graph) (a : String),
      followEdge g a "on_retry" "" "" = none ↔
        condTarget g a "on_retry" = none ∧ condTarget g a "always" = none) ∧
    (∀ (lib : List (String × Plan)) (s : GState) (p : Plan) (g : Graph) (n : GNode)
       (out : List Char),
      ¬ s.stale_after_turns < s.turns_since_transition + 1 →
      alistGet s.plan_id lib = some p → p.graph = some g →
      alistGet s.current_node g.nodes = some n → effType n = "task" →
      verifyNode n out = false →
      (visitedEntry s s.current_node).attempts + 1 ≤ n.max_retries.getD 0 →
      ((⟨"retry_triggered", s.turns_since_transition + 1, some s.current_node, none⟩ : Event)
          ∈ (checkGraphProgress lib s (some out)).events) ∧
      (followEdge g s.current_node "on_retry" "" "" = none →
        ∃ s', checkGraphProgress lib s (some out) = .active s' ∧
          s'.current_node = s.current_node ∧ s'.path = s.path) ∧
      (∀ t, followEdge g s.current_node "on_retry" "" "" = some t →
        checkGraphProgress lib s (some out) ≠ .abandoned ∧
        ((checkGraphProgress lib s (some out)).stateD dummyState).path.take
            (s.path.length + 1) = s.path ++ [t])) := by
  refine ⟨fun g a => followEdge_no_fallback g a "on_retry", ?_⟩
  intro lib s p g n out hst hp hg hn ht hv hatt
  have hstep := cgp_task lib s p g n (some out) hst hp hg hn ht
  have hht := handleTask_retry_case g n
    { s with turns_since_transition := s.turns_since_transition + 1,
             turns_since_progress := s.turns_since_progress + 1 } out hv hatt
  refine ⟨?_, ?_, ?_⟩
  · rw [hstep]
    exact finalCheck_event_mem g _ (by decide) hht.1
  · intro hfe
    obtain ⟨hcur, hpath⟩ := hht.2.1 hfe
    have hlook : alistGet (handleTask g n
        { s with turns_since_transition := s.turns_since_transition + 1,
                 turns_since_progress := s.turns_since_progress + 1 }
        (some out)).current_node g.nodes = some n := by
      rw [hcur]; exact hn
    have hfc : finalCheck g (handleTask g n
        { s with turns_since_transition := s.turns_since_transition + 1,
                 turns_since_progress := s.turns_since_progress + 1 } (some out))
        = .active (handleTask g n
        { s with turns_since_transition := s.turns_since_transition + 1,
                 turns_since_progress := s.turns_since_progress + 1 } (some out)) := by
      unfold finalCheck
      simp only [hlook]
      cases hnt : n.ntype with
      | none => rfl
      | some ty =>
        have hty : ty = "task" := by simpa [effType, hnt] using ht
        subst hty
        simp
    exact ⟨_, by rw [hstep, hfc], hcur, hpath⟩
  · intro t hfe
    obtain ⟨ext, hpath⟩ := hht.2.2 t hfe
    have h2 := finalCheck_stateD_path g (handleTask g n
      { s with turns_since_transition := s.turns_since_transition + 1,
               turns_since_progress := s.turns_since_progress + 1 } (some out)) dummyState
    refine ⟨by rw [hstep]; exact h2.1, ?_⟩
    rw [hstep, h2.2, hpath]
    rw [List.take_left' (by simp)]

/-- Witness for C4 on the concrete fixture: activating the plan lands on
`A`; the failing output `"bad"` with a retry remaining triggers the
retry event registered in the resulting event log. -/
theorem c4_retry_follows_on_retry_then_always_witness :
    (⟨"retry_triggered", 1, some "A", none⟩ : Event) ∈ retryStep.events := by
  have h := (c4_retry_follows_on_retry_then_always.2 retryLib retryActivated retryPlan
    retryGraph ⟨some "task", some ⟨some "output_contains", some "ok".toList⟩, some 1⟩
    "bad".toList (by decide) (by decide) (by decide) (by decide) (by decide) (by decide)
    (by decide)).1
  exact h

-- ── Matcher lemmas (C6) ──

theorem alistGet_split {β : Type} (k : String) (v : β) :
    ∀ (l1 : List (String × β)) (l2 : List (String × β)),
      ((l1 ++ (k, v) :: l2).map Prod.fst).Nodup →
      alistGet k (l1 ++ (k, v) :: l2) = some v := by
  intro l1
  induction l1 with
  | nil => intro l2 _; simp [alistGet]
  | cons hd t ihl =>
    intro l2 hnd
    obtain ⟨k', v'⟩ := hd
    simp only [List.cons_append, List.map_cons, List.nodup_cons] at hnd
    have hk : ¬ k' = k := by
      intro hcon
      subst hcon
      exact hnd.1 (by simp)
    simp only [List.cons_append, alistGet, hk, if_false]
    exact ihl l2 hnd.2

/-- Full characterization of the accumulator loop of `_match_plan`: either
the accumulator survives and every allowed qualifying plan in the remainder
scores no more than the running best score, or some allowed qualifying plan
wins with a score strictly above the running best, strictly above every
earlier allowed qualifying plan, and no less than every later one. -/
theorem matchLoop_spec (domain : String) (message : List Char)
    (allowed : Option (List String)) :
    ∀ (rest : List (String × Plan)) (best : Option String) (bestScore : Nat),
      (matchLoop domain message allowed rest best bestScore = best ∧
        ∀ pp ∈ rest, allowedOk allowed pp.1 = true → qualifies pp.2 domain message = true →
          planScore pp.2 domain message ≤ bestScore) ∨
      (∃ l1 pid p l2, rest = l1 ++ (pid, p) :: l2 ∧
        matchLoop domain message allowed rest best bestScore = some pid ∧
        allowedOk allowed pid = true ∧ qualifies p domain message = true ∧
        bestScore < planScore p domain message ∧
        (∀ pp ∈ l1, allowedOk allowed pp.1 = true → qualifies pp.2 domain message = true →
          planScore pp.2 domain message < planScore p domain message) ∧
        (∀ pp ∈ l2, allowedOk allowed pp.1 = true → qualifies pp.2 domain message = true →
          planScore pp.2 domain message ≤ planScore p domain message)) := by
  intro rest
  induction rest with
  | nil =>
    intro best bestScore
    exact Or.inl ⟨rfl, by simp⟩
  | cons hd tl ih =>
    intro best bestScore
    obtain ⟨pid0, p0⟩ := hd
    by_cases ha : allowedOk allowed pid0 = true
    · by_cases hq : (qualifies p0 domain message &&
          decide (bestScore < planScore p0 domain message)) = true
      · have hstep : matchLoop domain message allowed ((pid0, p0) :: tl) best bestScore
            = matchLoop domain message allowed tl (some pid0)
                (planScore p0 domain message) := by
          simp [matchLoop, ha, hq]
        rw [Bool.and_eq_true, decide_eq_true_eq] at hq
        rcases ih (some pid0) (planScore p0 domain message) with ⟨hres, hbnd⟩ | hwin
        · refine Or.inr ⟨[], pid0, p0, tl, rfl, by rw [hstep, hres], ha, hq.1, hq.2,
            by simp, ?_⟩
          intro pp hpp hppa hppq
          exact hbnd pp hpp hppa hppq
        · obtain ⟨l1, pid, p, l2, hsplit, hres, hpa, hpq, hlt, hl1, hl2⟩ := hwin
          refine Or.inr ⟨(pid0, p0) :: l1, pid, p, l2, by rw [hsplit]; rfl, by rw [hstep, hres],
            hpa, hpq, by omega, ?_, hl2⟩
          intro pp hpp hppa hppq
          rcases List.mem_cons.mp hpp with h | h
          · subst h
            simpa using hlt
          · exact hl1 pp h hppa hppq
      · have hstep : matchLoop domain message allowed ((pid0, p0) :: tl) best bestScore
            = matchLoop domain message allowed tl best bestScore := by
          simp only [matchLoop, ha, Bool.not_true, Bool.false_eq_true, if_false, hq]
        have hq2 : qualifies p0 domain message = true →
            planScore p0 domain message ≤ bestScore := by
          intro hptrue
          by_contra hcon
          exact hq (by rw [hptrue]; simpa using by omega)
        rcases ih best bestScore with ⟨hres, hbnd⟩ | hwin
        · refine Or.inl ⟨by rw [hstep, hres], ?_⟩
          intro pp hpp hppa hppq
          rcases List.mem_cons.mp hpp with h | h
          · subst h
            exact hq2 hppq
          · exact hbnd pp h hppa hppq
        · obtain ⟨l1, pid, p, l2, hsplit, hres, hpa, hpq, hlt, hl1, hl2⟩ := hwin
          refine Or.inr ⟨(pid0, p0) :: l1, pid, p, l2, by rw [hsplit]; rfl, by rw [hstep, hres],
            hpa, hpq, hlt, ?_, hl2⟩
          intro pp hpp hppa hppq
          rcases List.mem_cons.mp hpp with h | h
          · subst h
            have := hq2 hppq
            simp only at this ⊢
            omega
          · exact hl1 pp h hppa hppq
    · have hstep : matchLoop domain message allowed ((pid0, p0) :: tl) best bestScore
          = matchLoop domain message allowed tl best bestScore := by
        simp only [matchLoop]
        rw [if_pos (by simp [ha])]
      rcases ih best bestScore with ⟨hres, hbnd⟩ | hwin
      · refine Or.inl ⟨by rw [hstep, hres], ?_⟩
        intro pp hpp hppa hppq
        rcases List.mem_cons.mp hpp with h | h
        · subst h
          exact absurd hppa ha
        · exact hbnd pp h hppa hppq
      · obtain ⟨l1, pid, p, l2, hsplit, hres, hpa, hpq, hlt, hl1, hl2⟩ := hwin
        refine Or.inr ⟨(pid0, p0) :: l1, pid, p, l2, by rw [hsplit]; rfl, by rw [hstep, hres],
          hpa, hpq, hlt, ?_, hl2⟩
        intro pp hpp hppa hppq
        rcases List.mem_cons.mp hpp with h | h
        · subst h
          exact absurd hppa ha
        · exact hl1 pp h hppa hppq

-- ── C6 fixtures and theorems ──

/-- A plan with threshold 0, no triggers and no domain tags: it qualifies
with score 0. -/
def zeroScorePlan : Plan := ⟨none, [], [], some 0, none, none⟩

/-- A plan with one trigger and threshold 1. -/
def scoredPlan : Plan := ⟨none, [], ["xy".toList], some 1, none, none⟩

/-- Counterexample to C6 as stated: `zeroScorePlan` qualifies (0 hits ≥
threshold 0, no domain restriction) and is the only plan, yet `_match_plan`
selects nothing, because a score of 0 never beats the initial best score of
0. -/
theorem c6_matcher_counterexample :
    qualifies zeroScorePlan "" [] = true ∧
    allowedOk none "pz" = true ∧
    matchPlan [("pz", zeroScorePlan)] "" [] none = none := by
  exact ⟨by decide, by decide, by decide⟩

/-- Claim C6 (amended): among non-excluded plans the matcher selects the
qualifying plan (trigger hits ≥ threshold, domain accepted) of maximal
score — hits plus 1 for a declared-and-matched domain — provided that score
is strictly positive; ties keep the first plan in iteration order; when no
qualifying plan has positive score (in particular when none qualifies at
all), no selection is made.  A qualifying plan with score 0 is never
selected. -/
theorem c6_matcher_selects_best_positive_scorer
    (plans : List (String × Plan)) (domain : String) (message : List Char)
    (allowed : Option (List String)) (hnd : (plans.map Prod.fst).Nodup) :
    (matchPlan plans domain message allowed = none →
      ∀ pp ∈ plans, allowedOk allowed pp.1 = true → qualifies pp.2 domain message = true →
        planScore pp.2 domain message = 0) ∧
    (∀ pid p, matchPlan plans domain message allowed = some (pid, p) →
      ∃ l1 l2, plans = l1 ++ (pid, p) :: l2 ∧
        allowedOk allowed pid = true ∧ qualifies p domain message = true ∧
        1 ≤ planScore p domain message ∧
        (∀ pp ∈ l1, allowedOk allowed pp.1 = true → qualifies pp.2 domain message = true →
          planScore pp.2 domain message < planScore p domain message) ∧
        (∀ pp ∈ l2, allowedOk allowed pp.1 = true → qualifies pp.2 domain message = true →
          planScore pp.2 domain message ≤ planScore p domain message)) := by
  rcases matchLoop_spec domain message allowed plans none 0 with ⟨hres, hbnd⟩ | hwin
  · constructor
    · intro _ pp hpp hppa hppq
      have := hbnd pp hpp hppa hppq
      omega
    · intro pid p hmp
      unfold matchPlan at hmp
      rw [hres] at hmp
      simp at hmp
  · obtain ⟨l1, pid0, p0, l2, hsplit, hres, hpa, hpq, hlt, hl1, hl2⟩ := hwin
    have halist : alistGet pid0 plans = some p0 := by
      rw [hsplit]
      exact alistGet_split pid0 p0 l1 l2 (by rw [hsplit] at hnd; exact hnd)
    constructor
    · intro hmp
      unfold matchPlan at hmp
      simp only [hres] at hmp
      rw [halist] at hmp
      simp at hmp
    · intro pid p hmp
      unfold matchPlan at hmp
      simp only [hres] at hmp
      rw [halist] at hmp
      simp at hmp
      obtain ⟨hpid, hp⟩ := hmp
      subst hpid
      subst hp
      exact ⟨l1, l2, hsplit, hpa, hpq, by omega, hl1, hl2⟩

/-- Witness for C6 on a concrete one-plan library whose plan is selected:
the theorem's hypotheses hold by computation and yield the qualification
and positive score of the winner. -/
theorem c6_matcher_selects_best_positive_scorer_witness :
    qualifies scoredPlan "" "xy".toList = true ∧
    1 ≤ planScore scoredPlan "" "xy".toList := by
  obtain ⟨l1, l2, hsplit, hpa, hpq, hscore, h1, h2⟩ :=
    (c6_matcher_selects_best_positive_scorer [("w", scoredPlan)] "" "xy".toList none
      (by decide)).2 "w" scoredPlan (by decide)
  exact ⟨hpq, hscore⟩

-- ── Step characterization for the completion counters (C2) ──

theorem finalCheck_active_eq (g : Graph) (s s' : GState)
    (h : finalCheck g s = .active s') : s' = s := by
  unfold finalCheck at h
  split at h
  · injection h with h1
    exact h1.symm
  · split at h
    · split at h
      · exact StepResult.noConfusion h
      · split at h
        · exact StepResult.noConfusion h
        · injection h with h1
          exact h1.symm
    · injection h with h1
      exact h1.symm

theorem advanceFromStart_core (g : Graph) (s : GState) :
    (advanceFromStart g s).plan_id = s.plan_id ∧
    (advanceFromStart g s).total_nodes = s.total_nodes ∧
    (advanceFromStart g s).steps_completed = s.steps_completed ∧
    (advanceFromStart g s).completed_nodes = s.completed_nodes := by
  unfold advanceFromStart
  split
  · next t hf =>
    obtain ⟨h1, h2, h3, h4, h5⟩ := autoRouteFuel_core g MAX_ROUTE_DEPTH
      (moveToNode g (emitEvent s "node_entered" (some g.start) none) g.start t "always")
    exact ⟨h1.trans rfl, h2.trans rfl, h3.trans rfl, h4.trans rfl⟩
  · exact ⟨rfl, rfl, rfl, rfl⟩

theorem recordCompletion_core (nodeId : String) (s : GState) :
    (recordCompletion nodeId s).plan_id = s.plan_id ∧
    (recordCompletion nodeId s).total_nodes = s.total_nodes ∧
    ((nodeId ∈ s.steps_completed ∧
       (recordCompletion nodeId s).steps_completed = s.steps_completed ∧
       (recordCompletion nodeId s).completed_nodes = s.completed_nodes) ∨
     (nodeId ∉ s.steps_completed ∧
       (recordCompletion nodeId s).steps_completed = s.steps_completed ++ [nodeId] ∧
       (recordCompletion nodeId s).completed_nodes = s.completed_nodes + 1)) := by
  unfold recordCompletion
  by_cases hmem : nodeId ∈ s.steps_completed
  · rw [if_pos hmem]
    exact ⟨rfl, rfl, Or.inl ⟨hmem, rfl, rfl⟩⟩
  · rw [if_neg hmem]
    exact ⟨rfl, rfl, Or.inr ⟨hmem, rfl, rfl⟩⟩

theorem recordFailure_core (nodeId : String) (s : GState) :
    (recordFailure nodeId s).plan_id = s.plan_id ∧
    (recordFailure nodeId s).total_nodes = s.total_nodes ∧
    (recordFailure nodeId s).steps_completed = s.steps_completed ∧
    (recordFailure nodeId s).completed_nodes = s.completed_nodes := by
  unfold recordFailure
  by_cases hmem : nodeId ∈ s.steps_failed
  · rw [if_pos hmem]
    exact ⟨rfl, rfl, rfl, rfl⟩
  · rw [if_neg hmem]
    exact ⟨rfl, rfl, rfl, rfl⟩

theorem retryBlock_core (g : Graph) (nodeId : String) (s : GState) :
    (retryBlock g nodeId s).plan_id = s.plan_id ∧
    (retryBlock g nodeId s).total_nodes = s.total_nodes ∧
    (retryBlock g nodeId s).steps_completed = s.steps_completed ∧
    (retryBlock g nodeId s).completed_nodes = s.completed_nodes := by
  unfold retryBlock
  split
  · next t hf =>
    obtain ⟨h1, h2, h3, h4, h5⟩ := autoRouteFuel_core g MAX_ROUTE_DEPTH _
    exact ⟨h1.trans rfl, h2.trans rfl, h3.trans rfl, h4.trans rfl⟩
  · exact ⟨rfl, rfl, rfl, rfl⟩

theorem exhaustBlock_core (g : Graph) (nodeId : String) (att : Nat) (s : GState) :
    (exhaustBlock g nodeId att s).plan_id = s.plan_id ∧
    (exhaustBlock g nodeId att s).total_nodes = s.total_nodes ∧
    (exhaustBlock g nodeId att s).steps_completed = s.steps_completed ∧
    (exhaustBlock g nodeId att s).completed_nodes = s.completed_nodes := by
  have hrf := recordFailure_core nodeId
    { s with visited := alistSet nodeId ⟨"fail", att⟩ s.visited }
  unfold exhaustBlock
  split
  · next t hf =>
    obtain ⟨h1, h2, h3, h4, h5⟩ := autoRouteFuel_core g MAX_ROUTE_DEPTH _
    exact ⟨h1.trans (hrf.1.trans rfl), h2.trans (hrf.2.1.trans rfl),
      h3.trans (hrf.2.2.1.trans rfl), h4.trans (hrf.2.2.2.trans rfl)⟩
  · exact ⟨hrf.1.trans rfl, hrf.2.1.trans rfl, hrf.2.2.1.trans rfl, hrf.2.2.2.trans rfl⟩

theorem successBlock_core (g : Graph) (nodeId : String) (att : Nat) (s : GState) :
    (successBlock g nodeId att s).plan_id = s.plan_id ∧
    (successBlock g nodeId att s).total_nodes = s.total_nodes ∧
    ((nodeId ∈ s.steps_completed ∧
       (successBlock g nodeId att s).steps_completed = s.steps_completed ∧
       (successBlock g nodeId att s).completed_nodes = s.completed_nodes) ∨
     (nodeId ∉ s.steps_completed ∧
       (successBlock g nodeId att s).steps_completed = s.steps_completed ++ [nodeId] ∧
       (successBlock g nodeId att s).completed_nodes = s.completed_nodes + 1)) := by
  have hrc := recordCompletion_core nodeId
    { s with visited := alistSet nodeId ⟨"success", att⟩ s.visited }
  unfold successBlock
  split
  · next t hf =>
    obtain ⟨h1, h2, h3, h4, h5⟩ := autoRouteFuel_core g MAX_ROUTE_DEPTH _
    refine ⟨h1.trans (hrc.1.trans rfl), h2.trans (hrc.2.1.trans rfl), ?_⟩
    rcases hrc.2.2 with ⟨hm, ha, hb⟩ | ⟨hm, ha, hb⟩
    · exact Or.inl ⟨hm, h3.trans (ha.trans rfl), h4.trans (hb.trans rfl)⟩
    · exact Or.inr ⟨hm, h3.trans (ha.trans rfl), h4.trans (hb.trans rfl)⟩
  · refine ⟨hrc.1.trans rfl, hrc.2.1.trans rfl, ?_⟩
    rcases hrc.2.2 with ⟨hm, ha, hb⟩ | ⟨hm, ha, hb⟩
    · exact Or.inl ⟨hm, ha.trans rfl, hb.trans rfl⟩
    · exact Or.inr ⟨hm, ha.trans rfl, hb.trans rfl⟩

theorem handleTask_core (g : Graph) (n : GNode) (s : GState)
    (lastOutput : Option (List Char)) :
    (handleTask g n s lastOutput).plan_id = s.plan_id ∧
    (handleTask g n s lastOutput).total_nodes = s.total_nodes ∧
    (((handleTask g n s lastOutput).steps_completed = s.steps_completed ∧
      (handleTask g n s lastOutput).completed_nodes = s.completed_nodes) ∨
     (∃ o, lastOutput = some o ∧ verifyNode n o = true ∧
        s.current_node ∉ s.steps_completed ∧
        (handleTask g n s lastOutput).steps_completed
          = s.steps_completed ++ [s.current_node] ∧
        (handleTask g n s lastOutput).completed_nodes = s.completed_nodes + 1)) := by
  cases lastOutput with
  | none => exact ⟨rfl, rfl, Or.inl ⟨rfl, rfl⟩⟩
  | some o =>
    simp only [handleTask]
    cases hv : verifyNode n o with
    | true =>
      simp only [hv, if_true]
      have hsb := successBlock_core g s.current_node
        ((visitedEntry s s.current_node).attempts + 1)
        (emitEvent { s with visited := (alistSet s.current_node
            ⟨(visitedEntry s s.current_node).outcome,
             (visitedEntry s s.current_node).attempts + 1⟩ s.visited) }
          "node_verified" (some s.current_node) (some "success"))
      refine ⟨hsb.1.trans rfl, hsb.2.1.trans rfl, ?_⟩
      rcases hsb.2.2 with ⟨hm, ha, hb⟩ | ⟨hm, ha, hb⟩
      · exact Or.inl ⟨ha.trans rfl, hb.trans rfl⟩
      · exact Or.inr ⟨o, rfl, hv, hm, ha.trans rfl, hb.trans rfl⟩
    | false =>
      simp only [hv, Bool.false_eq_true, if_false]
      split
      · next hatt =>
        have hrb := retryBlock_core g s.current_node
          (emitEvent { s with visited := (alistSet s.current_node
              ⟨(visitedEntry s s.current_node).outcome,
               (visitedEntry s s.current_node).attempts + 1⟩ s.visited) }
            "node_verified" (some s.current_node) (some "fail"))
        exact ⟨hrb.1.trans rfl, hrb.2.1.trans rfl,
          Or.inl ⟨hrb.2.2.1.trans rfl, hrb.2.2.2.trans rfl⟩⟩
      · next hatt =>
        have heb := exhaustBlock_core g s.current_node
          ((visitedEntry s s.current_node).attempts + 1)
          (emitEvent { s with visited := (alistSet s.current_node
              ⟨(visitedEntry s s.current_node).outcome,
               (visitedEntry s s.current_node).attempts + 1⟩ s.visited) }
            "node_verified" (some s.current_node) (some "fail"))
        exact ⟨heb.1.trans rfl, heb.2.1.trans rfl,
          Or.inl ⟨heb.2.2.1.trans rfl, heb.2.2.2.trans rfl⟩⟩

/-- Every advance call that leaves the plan active preserves `plan_id` and
`total_nodes`, and touches the completion records only by appending the
current node on its first verified success. -/
theorem cgp_active_core (lib : List (String × Plan)) (s : GState)
    (out : Option (List Char)) (s' : GState)
    (h : checkGraphProgress lib s out = .active s') :
    s'.plan_id = s.plan_id ∧ s'.total_nodes = s.total_nodes ∧
    ((s'.steps_completed = s.steps_completed ∧ s'.completed_nodes = s.completed_nodes) ∨
     (∃ p g n o, alistGet s.plan_id lib = some p ∧ p.graph = some g ∧
        alistGet s.current_node g.nodes = some n ∧ effType n = "task" ∧
        out = some o ∧ verifyNode n o = true ∧
        s.current_node ∉ s.steps_completed ∧
        s'.steps_completed = s.steps_completed ++ [s.current_node] ∧
        s'.completed_nodes = s.completed_nodes + 1)) := by
  simp only [checkGraphProgress] at h
  split at h
  · exact StepResult.noConfusion h
  · next hst =>
    split at h
    · exact StepResult.noConfusion h
    · next p hp =>
      split at h
      · exact StepResult.noConfusion h
      · next g hg =>
        split at h
        · exact StepResult.noConfusion h
        · next n hn =>
          split at h
          · exact StepResult.noConfusion h
          · split at h
            · exact StepResult.noConfusion h
            · split at h
              · next hty =>
                injection h with h1
                subst h1
                obtain ⟨h1, h2, h3, h4⟩ := advanceFromStart_core g _
                exact ⟨h1.trans rfl, h2.trans rfl, Or.inl ⟨h3.trans rfl, h4.trans rfl⟩⟩
              · split at h
                · next hty =>
                  have hs' := finalCheck_active_eq g _ s' h
                  subst hs'
                  obtain ⟨h1, h2, hsteps⟩ := handleTask_core g n
                    { s with turns_since_transition := s.turns_since_transition + 1,
                             turns_since_progress := s.turns_since_progress + 1 } out
                  refine ⟨h1.trans rfl, h2.trans rfl, ?_⟩
                  rcases hsteps with ⟨ha, hb⟩ | ⟨o, ho, hov, hm, ha, hb⟩
                  · exact Or.inl ⟨ha.trans rfl, hb.trans rfl⟩
                  · exact Or.inr ⟨p, g, n, o, hp, hg, hn, hty, ho, hov, hm,
                      ha.trans rfl, hb.trans rfl⟩
                · split at h
                  · have hs' := finalCheck_active_eq g _ s' h
                    subst hs'
                    obtain ⟨h1, h2, h3, h4, h5⟩ := autoRouteFuel_core g MAX_ROUTE_DEPTH _
                    exact ⟨h1.trans rfl, h2.trans rfl,
                      Or.inl ⟨h3.trans rfl, h4.trans rfl⟩⟩
                  · have hs' := finalCheck_active_eq g _ s' h
                    subst hs'
                    exact ⟨rfl, rfl, Or.inl ⟨rfl, rfl⟩⟩

-- ── Reachability and the completion-count invariant (C2) ──

/-- Traversal states the engine can actually hold: an activation of some
graph plan from the library, or the active result of one more advance call
on a reachable state. -/
inductive ReachableG (lib : List (String × Plan)) : GState → Prop where
  | activated (pid : String) (p : Plan) (g : Graph) :
      alistGet pid lib = some p → p.graph = some g →
      ReachableG lib (activate pid p g)
  | step (s : GState) (out : Option (List Char)) (s' : GState) :
      ReachableG lib s → checkGraphProgress lib s out = .active s' →
      ReachableG lib s'

/-- Every node of the graph declares a type (Python: every node dict has a
`"type"` key). -/
def allNodesTyped (g : Graph) : Prop := ∀ kn ∈ g.nodes, kn.2.ntype ≠ none

/-- A duplicate-free list of ids, each resolving to an effective task node
in a graph with duplicate-free keys, is no longer than the graph's
effective task count. -/
theorem length_le_effTaskCount (g : Graph) (ids : List String)
    (hnd : ids.Nodup) (hkeys : (g.nodes.map Prod.fst).Nodup)
    (hmem : ∀ id ∈ ids, ∃ n, alistGet id g.nodes = some n ∧ effType n = "task") :
    ids.length ≤ effTaskCount g := by
  have hsub : ids ⊆ (g.nodes.filter (fun kn => decide (effType kn.2 = "task"))).map
      Prod.fst := by
    intro id hid
    obtain ⟨n, hn, ht⟩ := hmem id hid
    have hpair : (id, n) ∈ g.nodes := alistGet_mem hn
    have : (id, n) ∈ g.nodes.filter (fun kn => decide (effType kn.2 = "task")) :=
      List.mem_filter.mpr ⟨hpair, by simpa using ht⟩
    exact List.mem_map.mpr ⟨(id, n), this, rfl⟩
  have htknd : ((g.nodes.filter (fun kn => decide (effType kn.2 = "task"))).map
      Prod.fst).Nodup := by
    have hsl := (g.nodes.filter_sublist
      (p := fun kn => decide (effType kn.2 = "task"))).map Prod.fst
    exact hkeys.sublist hsl
  have hlen : ids.length ≤ ((g.nodes.filter
      (fun kn => decide (effType kn.2 = "task"))).map Prod.fst).length := by
    have h1 : ids.length = ids.toFinset.card := (List.toFinset_card_of_nodup hnd).symm
    have h2 : ids.toFinset ⊆ ((g.nodes.filter
        (fun kn => decide (effType kn.2 = "task"))).map Prod.fst).toFinset := by
      intro a ha
      exact List.mem_toFinset.mpr (hsub (List.mem_toFinset.mp ha))
    calc ids.length = ids.toFinset.card := h1
      _ ≤ ((g.nodes.filter (fun kn => decide (effType kn.2 = "task"))).map
            Prod.fst).toFinset.card := Finset.card_le_card h2
      _ ≤ ((g.nodes.filter (fun kn => decide (effType kn.2 = "task"))).map
            Prod.fst).length := List.toFinset_card_le _
  calc ids.length
      ≤ ((g.nodes.filter (fun kn => decide (effType kn.2 = "task"))).map
          Prod.fst).length := hlen
    _ = (g.nodes.filter (fun kn => decide (effType kn.2 = "task"))).length := by
        rw [List.length_map]
    _ = g.nodes.countP (fun kn => decide (effType kn.2 = "task")) :=
        (List.countP_eq_length_filter _ _).symm
    _ = effTaskCount g := by
        unfold effTaskCount
        rw [List.countP_map]
        rfl

/-- When every node declares its type, the traversal's effective task set is
exactly the declared one, so both counts agree. -/
theorem effTaskCount_eq_taskCount (g : Graph) (h : allNodesTyped g) :
    effTaskCount g = taskCount g := by
  unfold effTaskCount taskCount
  apply List.countP_congr
  intro n hn
  obtain ⟨kn, hkn, hsnd⟩ := List.mem_map.mp hn
  have := h kn hkn
  cases hnt : kn.2.ntype with
  | none => exact absurd hnt this
  | some t =>
    subst hsnd
    simp [effType, hnt]

/-- The inductive invariant carried along reachable states. -/
def InvC2 (lib : List (String × Plan)) (s : GState) : Prop :=
  s.steps_completed.Nodup ∧
  s.completed_nodes = s.steps_completed.length ∧
  ∃ p g, alistGet s.plan_id lib = some p ∧ p.graph = some g ∧
    s.total_nodes = taskCount g ∧
    ∀ id ∈ s.steps_completed, ∃ n, alistGet id g.nodes = some n ∧ effType n = "task"

theorem reachable_inv (lib : List (String × Plan)) (s : GState)
    (h : ReachableG lib s) : InvC2 lib s := by
  induction h with
  | activated pid p g hp hg =>
    obtain ⟨h1, h2, h3, h4⟩ := advanceFromStart_core g (createGraphState pid p g)
    refine ⟨?_, ?_, p, g, ?_, hg, ?_, ?_⟩
    · rw [show (activate pid p g).steps_completed = [] from h3.trans rfl]
      exact List.nodup_nil
    · rw [show (activate pid p g).steps_completed = [] from h3.trans rfl,
        show (activate pid p g).completed_nodes = 0 from h4.trans rfl]
      rfl
    · rw [show (activate pid p g).plan_id = pid from h1.trans rfl]
      exact hp
    · rw [show (activate pid p g).total_nodes = taskCount g from h2.trans rfl]
    · rw [show (activate pid p g).steps_completed = [] from h3.trans rfl]
      intro id hid
      simp at hid
  | step s out s' hr hstep ih =>
    obtain ⟨hnd, hlen, p, g, hp, hg, htot, hmem⟩ := ih
    obtain ⟨h1, h2, hsteps⟩ := cgp_active_core lib s out s' hstep
    rcases hsteps with ⟨ha, hb⟩ | ⟨p2, g2, n, o, hp2, hg2, hn2, hty2, _, _, hm, ha, hb⟩
    · exact ⟨ha ▸ hnd, by rw [hb, ha]; exact hlen, p, g, h1 ▸ hp, hg, h2 ▸ htot,
        ha ▸ hmem⟩
    · have hpp : p = p2 := Option.some_injective _ (hp.symm.trans hp2)
      subst hpp
      have hgg : g = g2 := Option.some_injective _ (hg.symm.trans hg2)
      subst hgg
      refine ⟨?_, ?_, p, g, h1 ▸ hp, hg, h2 ▸ htot, ?_⟩
      · rw [ha]
        simp only [List.nodup_append, List.nodup_singleton, List.disjoint_singleton]
        exact ⟨hnd, trivial, hm⟩
      · rw [hb, ha, hlen]
        simp
      · rw [ha]
        intro id hid
        rcases List.mem_append.mp hid with hid | hid
        · exact hmem id hid
        · rw [List.mem_singleton.mp hid]
          exact ⟨n, hn2, hty2⟩

-- ── C2 fixtures and theorems ──

/-- A graph with two nodes that declare no type: activation's `total_nodes`
counts only nodes explicitly typed `"task"` (zero here), while traversal
treats untyped nodes as tasks. -/
def untypedGraph : Graph :=
  { nodes := [("s0", ⟨some "start", none, none⟩),
              ("x", ⟨none, none, none⟩),
              ("y", ⟨none, none, none⟩)]
    edges := [⟨some "s0", "x", some "always"⟩, ⟨some "x", "y", some "always"⟩]
    start := "s0" }

def untypedPlan : Plan := ⟨none, [], [], none, some untypedGraph, none⟩

def untypedLib : List (String × Plan) := [("p2", untypedPlan)]

def untypedActivated : GState := activate "p2" untypedPlan untypedGraph

/-- One advance with any tool output: the untyped node `x` (no verify spec)
counts as completed. -/
def untypedStep : StepResult :=
  checkGraphProgress untypedLib untypedActivated (some "hi".toList)

def untypedState : GState := untypedStep.stateD dummyState

/-- Counterexample to C2 as stated: a reachable active state of the
untyped-node plan has `completed_nodes = 1 > 0 = total_nodes`, because the
node completed by traversal (default task type) was never counted at
activation. -/
theorem c2_completed_counterexample :
    ReachableG untypedLib untypedState ∧
    untypedState.completed_nodes = 1 ∧
    untypedState.total_nodes = 0 := by
  refine ⟨ReachableG.step untypedActivated (some "hi".toList) untypedState
    (ReachableG.activated "p2" untypedPlan untypedGraph (by decide) (by decide)) ?_,
    by decide, by decide⟩
  decide

/-- Claim C2 (amended): in every reachable traversal state, steps_completed
is duplicate-free, completed_nodes equals its length (so re-visits never
double count and completed_nodes only moves on a first success, as the last
conjunct states), and completed_nodes is bounded by the number of nodes the
traversal treats as tasks (declared type `"task"` or no declared type);
when every node declares a type this bound is `total_nodes` itself. -/
theorem c2_completed_nodes_invariant (lib : List (String × Plan)) (s : GState)
    (hkeys : ∀ pid p g, alistGet pid lib = some p → p.graph = some g →
      (g.nodes.map Prod.fst).Nodup)
    (hreach : ReachableG lib s) :
    s.steps_completed.Nodup ∧
    s.completed_nodes = s.steps_completed.length ∧
    (∃ p g, alistGet s.plan_id lib = some p ∧ p.graph = some g ∧
      s.total_nodes = taskCount g ∧
      s.completed_nodes ≤ effTaskCount g ∧
      (allNodesTyped g → s.completed_nodes ≤ s.total_nodes)) ∧
    (∀ out s', checkGraphProgress lib s out = .active s' →
      (s'.steps_completed = s.steps_completed ∧ s'.completed_nodes = s.completed_nodes) ∨
      (∃ p g n o, alistGet s.plan_id lib = some p ∧ p.graph = some g ∧
        alistGet s.current_node g.nodes = some n ∧ effType n = "task" ∧
        out = some o ∧ verifyNode n o = true ∧
        s.current_node ∉ s.steps_completed ∧
        s'.steps_completed = s.steps_completed ++ [s.current_node] ∧
        s'.completed_nodes = s.completed_nodes + 1)) := by
  obtain ⟨hnd, hlen, p, g, hp, hg, htot, hmem⟩ := reachable_inv lib s hreach
  have hbound : s.completed_nodes ≤ effTaskCount g := by
    rw [hlen]
    exact length_le_effTaskCount g s.steps_completed hnd (hkeys s.plan_id p g hp hg) hmem
  refine ⟨hnd, hlen, ⟨p, g, hp, hg, htot, hbound, ?_⟩,
    fun out s' hstep => (cgp_active_core lib s out s' hstep).2.2⟩
  intro htyped
  rw [htot, ← effTaskCount_eq_taskCount g htyped]
  exact hbound

/-- Witness for C2 on the Scenario E plan: the theorem's hypotheses hold by
computation at the freshly activated state, giving the invariant there. -/
theorem c2_completed_nodes_invariant_witness :
    cycleActivated.steps_completed.Nodup ∧
    cycleActivated.completed_nodes = cycleActivated.steps_completed.length := by
  have hkeys : ∀ pid p g, alistGet pid cycleLib = some p → p.graph = some g →
      (g.nodes.map Prod.fst).Nodup := by
    intro pid p g hp hg
    unfold cycleLib at hp
    simp only [alistGet] at hp
    split at hp
    · injection hp with hpp
      subst hpp
      injection hg with hgg
      subst hgg
      decide
    · exact Option.noConfusion hp
  have h := c2_completed_nodes_invariant cycleLib cycleActivated hkeys
    (ReachableG.activated "pe" cyclePlan cycleGraph (by decide) (by decide))
  exact ⟨h.1, h.2.1⟩
